import Mathlib

/-!
# Verification of the elevator dispatch controller

Shallow embedding of `src/controller.rs` (repository `sakex/elevator-solution`).

* `ElevatorButtonsInfo` mirrors the per-car struct (Rust `BTreeSet<FloorId>`
  becomes `Finset ℕ`; its ordered queries `first`/`last`/`range` become
  `setMin`/`setMax`/`Finset.filter`-based minima and maxima).
* `find_best_elevator_match`, `process_waiting_list` and the event handlers of
  `controller` are translated function by function.
* Rust `Range<FloorId>` is the half-open interval structure `FloorRange`
  with `contains x = (start ≤ x && x < stop)`, exactly Rust's
  `Range::contains`.
* `unwrap` calls whose success is structurally guaranteed at every call site
  of the source (`next_step().unwrap()` after an insert and possible
  `swap_direction`, `should_visit.first().unwrap()` under a non-empty set)
  are modelled with `Option.getD`; `unwrap`s that can actually abort the
  task (`get_mut(...).unwrap()` on a bad elevator id, `send(...).unwrap()`
  on a closed channel, and the `print_matrix[elevator.position]` index)
  are modelled by the `Except ControllerPanic` layer of `controllerCycle`.
-/

namespace Elevator

inductive Direction
  | Up
  | Down
deriving DecidableEq, Repr

abbrev FloorId := Nat

abbrev ElevatorId := Nat

inductive BuildingCommand
  | GoToFloor : ElevatorId → FloorId → BuildingCommand
deriving DecidableEq, Repr

inductive BuildingEvent
  | CallButtonPressed : FloorId → Direction → BuildingEvent
  | FloorButtonPressed : ElevatorId → FloorId → BuildingEvent
  | AtFloor : ElevatorId → FloorId → BuildingEvent
  | Other : BuildingEvent
deriving DecidableEq, Repr

/-- Rust `std::ops::Range<FloorId>`: a half-open interval `[start, stop)`.
The Rust field `end` is called `stop` here (`end` is reserved in Lean). -/
structure FloorRange where
  start : FloorId
  stop : FloorId
deriving DecidableEq, Repr

/-- Rust `Range::contains`: `start ≤ x && x < end`. -/
def FloorRange.contains (r : FloorRange) (x : FloorId) : Bool :=
  decide (r.start ≤ x) && decide (x < r.stop)

/-- `BTreeSet::first()`: smallest element, `none` when the set is empty. -/
def setMin (s : Finset ℕ) : Option ℕ :=
  if h : s.Nonempty then some (s.min' h) else none

/-- `BTreeSet::last()`: largest element, `none` when the set is empty. -/
def setMax (s : Finset ℕ) : Option ℕ :=
  if h : s.Nonempty then some (s.max' h) else none

/-- The per-car state `ElevatorButtonsInfo` of `controller.rs`, with the same
field names; `#[derive(Default)]` corresponds to the default field values. -/
structure ElevatorButtonsInfo where
  position : FloorId := 0
  passenger_count : Nat := 0
  should_visit : Finset FloorId := ∅
  direction : Option Direction := none
deriving DecidableEq

namespace ElevatorButtonsInfo

/-- `fn is_idle(&self) -> bool { self.should_visit.is_empty() }` -/
def is_idle (e : ElevatorButtonsInfo) : Bool :=
  decide (e.should_visit = ∅)

/-- `fn current_trip(&self) -> Option<Range<FloorId>>`: `direction?`, then
`first?`/`last?` of `should_visit`, then `position..last` for `Up` and
`position..first` for `Down`. -/
def current_trip (e : ElevatorButtonsInfo) : Option FloorRange :=
  match e.direction with
  | none => none
  | some d =>
    match setMin e.should_visit, setMax e.should_visit with
    | some first, some last =>
      match d with
      | .Up => some ⟨e.position, last⟩
      | .Down => some ⟨e.position, first⟩
    | _, _ => none

/-- `fn next_step(&self) -> Option<FloorId>`: for `Up` the first element of
`should_visit.range(position..)`, for `Down` the last element of
`should_visit.range(0..=position)`. -/
def next_step (e : ElevatorButtonsInfo) : Option FloorId :=
  match e.direction with
  | none => none
  | some .Up => setMin (e.should_visit.filter fun f => e.position ≤ f)
  | some .Down => setMax (e.should_visit.filter fun f => f ≤ e.position)

/-- `fn distance_to(&self, floor) -> i32 { (position as i32 - floor as i32).abs() }` -/
def distance_to (e : ElevatorButtonsInfo) (floor : FloorId) : ℤ :=
  |(e.position : ℤ) - (floor : ℤ)|



end ElevatorButtonsInfo

def Direction.flipDir : Direction → Direction
  | .Up => .Down
  | .Down => .Up

namespace ElevatorButtonsInfo

/-- `fn swap_direction(&mut self)`: map `Up↔Down` over the option; if the
direction was `None`, derive it from `position` versus
`should_visit.first().unwrap()` (all call sites of the source have a
non-empty `should_visit`, so the `getD 0` default is never used there). -/
def swap_direction (e : ElevatorButtonsInfo) : ElevatorButtonsInfo :=
  match e.direction.map Direction.flipDir with
  | some d => { e with direction := some d }
  | none =>
    let first := (setMin e.should_visit).getD 0
    { e with direction := if e.position < first then some .Up else some .Down }



end ElevatorButtonsInfo

/-- Candidate test of `find_best_elevator_match`:
`elevator.is_idle() || (elevator.current_trip().unwrap().contains(&floor)
&& elevator.direction.unwrap() == direction)`.  A non-idle car whose
`current_trip()` is `None` would panic in Rust (`direction` is `None` with
stops pending, violating the direction invariant); the `getD ⟨0, 0⟩` default
makes such a car a non-candidate, and every theorem touching this function
assumes the direction invariant, under which the default is never used. -/
def isCandidate (floor : FloorId) (dir : Direction) (e : ElevatorButtonsInfo) : Bool :=
  e.is_idle || ((e.current_trip.getD ⟨0, 0⟩).contains floor && decide (e.direction = some dir))

/-- One iteration of the `for (id, elevator)` loop of
`find_best_elevator_match`: keep the running best `(lowest_distance, result)`
pair, replacing it only on a strictly smaller distance. `none` plays the role
of the initial `(i32::MAX, None)`. -/
def betterCandidate (floor : FloorId) (dir : Direction)
    (best : Option (ℤ × ElevatorId)) (id : ElevatorId) (e : ElevatorButtonsInfo) :
    Option (ℤ × ElevatorId) :=
  if isCandidate floor dir e then
    match best with
    | none => some (e.distance_to floor, id)
    | some (d0, i0) =>
      if e.distance_to floor < d0 then some (e.distance_to floor, id) else some (d0, i0)
  else best

def findBestAux (floor : FloorId) (dir : Direction) :
    List ElevatorButtonsInfo → ElevatorId → Option (ℤ × ElevatorId) → Option (ℤ × ElevatorId)
  | [], _, best => best
  | e :: rest, id, best => findBestAux floor dir rest (id + 1) (betterCandidate floor dir best id e)

/-- `fn find_best_elevator_match(floor, direction, should_visit_by_elevator)`. -/
def find_best_elevator_match (floor : FloorId) (dir : Direction)
    (cars : List ElevatorButtonsInfo) : Option ElevatorId :=
  (findBestAux floor dir cars 0 none).map Prod.snd

/-- Accumulator of the `process_waiting_list` loop: the mutable car slice,
`waiters_to_remove`, and the commands sent so far. -/
structure PassState where
  cars : List ElevatorButtonsInfo
  to_remove : List (FloorId × Direction)
  cmds : List BuildingCommand
deriving DecidableEq

/-- The insert-and-fix step shared by `process_waiting_list` and the
`FloorButtonPressed` arm: `should_visit.insert(floor)`, then
`if next_step().is_none() { swap_direction() }`. -/
def assignStop (e : ElevatorButtonsInfo) (floor : FloorId) : ElevatorButtonsInfo :=
  let e1 := { e with should_visit := insert floor e.should_visit }
  if e1.next_step = none then e1.swap_direction else e1

/-- Body of the `for &(floor, direction) in &*call_button_pressed_by_floor`
loop of `process_waiting_list`: on a match push the pair onto
`waiters_to_remove`; skip (`continue`) when
`floor == elevator_info.position && !elevator_info.is_idle()`; otherwise
insert the stop, fix the direction, and send
`GoToFloor(elevator_id, next_step().unwrap())`. -/
def processPair (st : PassState) (p : FloorId × Direction) : PassState :=
  match find_best_elevator_match p.1 p.2 st.cars with
  | none => st
  | some id =>
    let e := st.cars.getD id {}
    let removed := st.to_remove ++ [p]
    if p.1 = e.position ∧ e.is_idle = false then
      { st with to_remove := removed }
    else
      let e2 := assignStop e p.1
      { cars := st.cars.set id e2
        to_remove := removed
        cmds := st.cmds ++ [.GoToFloor id (e2.next_step.getD 0)] }

/-- `async fn process_waiting_list`: loop over the pending hall calls (the
`HashSet` is modelled as a list fixing one iteration order), then remove
every pair of `waiters_to_remove` from the set.  Returns the updated cars,
the updated pending set, and the commands sent. -/
def process_waiting_list (cars : List ElevatorButtonsInfo)
    (pending : List (FloorId × Direction)) :
    List ElevatorButtonsInfo × List (FloorId × Direction) × List BuildingCommand :=
  let st := pending.foldl processPair ⟨cars, [], []⟩
  (st.cars, pending.filter fun p => decide (p ∉ st.to_remove), st.cmds)

/-- The state owned by `controller`: `should_visit_by_elevator` and
`call_button_pressed_by_floor` (the `HashSet` modelled as a duplicate-free
list fixing one iteration order). -/
structure CtrlState where
  cars : List ElevatorButtonsInfo
  pending : List (FloorId × Direction)
deriving DecidableEq

/-- The ways the controller task aborts: `get_mut(elevator_id).unwrap()` on a
missing id, `send(..).unwrap()` on a closed command channel, and the
`print_matrix[elevator.position]` index in `print_state`. -/
inductive ControllerPanic
  | badElevatorId
  | sendFailure
  | printIndexOutOfBounds
deriving DecidableEq, Repr

/-- `HashSet::insert` on the pending-call set: a no-op when the pair is
already present. -/
def insertPending (p : FloorId × Direction) (l : List (FloorId × Direction)) :
    List (FloorId × Direction) :=
  if p ∈ l then l else p :: l

/-- `FloorButtonPressed` arm of `controller`: insert the destination,
increment `passenger_count`, then `if next_step().is_none() { swap }`. -/
def floorButtonUpdate (e : ElevatorButtonsInfo) (dest : FloorId) : ElevatorButtonsInfo :=
  assignStop { e with passenger_count := e.passenger_count + 1 } dest

/-- `AtFloor` arm of `controller`, per car: remove the floor, update the
position, reverse the direction when the sweep is exhausted but stops
remain, and either report the next stop to go to (car still busy) or clear
`direction` (car idle).  Returns the new car state and the optional
`GoToFloor` target. -/
def atFloorUpdate (e : ElevatorButtonsInfo) (floor : FloorId) :
    ElevatorButtonsInfo × Option FloorId :=
  let e1 := { e with should_visit := e.should_visit.erase floor, position := floor }
  let e2 := if e1.next_step = none ∧ e1.is_idle = false then e1.swap_direction else e1
  if e2.is_idle = false then (e2, some (e2.next_step.getD 0))
  else ({ e2 with direction := none }, none)

/-- The `match evt` of `controller`'s event loop, without the trailing
reconciliation pass: returns the new state and the commands the arm sends,
or the panic of `get_mut(elevator_id).unwrap()` on a nonexistent id. -/
def handleEvent (s : CtrlState) :
    BuildingEvent → Except ControllerPanic (CtrlState × List BuildingCommand)
  | .CallButtonPressed floor dir =>
    .ok ({ s with pending := insertPending (floor, dir) s.pending }, [])
  | .FloorButtonPressed id dest =>
    if h : id < s.cars.length then
      let e2 := floorButtonUpdate (s.cars.get ⟨id, h⟩) dest
      .ok ({ s with cars := s.cars.set id e2 }, [.GoToFloor id (e2.next_step.getD 0)])
    else .error .badElevatorId
  | .AtFloor id floor =>
    if h : id < s.cars.length then
      let r := atFloorUpdate (s.cars.get ⟨id, h⟩) floor
      .ok ({ s with cars := s.cars.set id r.1 },
        match r.2 with
        | some f => [.GoToFloor id f]
        | none => [])
    else .error .badElevatorId
  | .Other => .ok (s, [])

/-- `print_state` draws `print_matrix[elevator.position][id]`; the row index
panics exactly when some car's position is at or above `floors_count`.
The rendering itself changes no controller state and sends nothing. -/
def printStateCheck (floors_count : Nat) (cars : List ElevatorButtonsInfo) : Bool :=
  cars.any fun e => decide (floors_count ≤ e.position)

/-- One full iteration of `controller`'s event loop: handle the event, run
`process_waiting_list`, draw `print_state`.  `chOpen` tells whether the
command channel still has a receiver: every command is sent through
`send(..).unwrap()`, so the first send on a closed channel panics. -/
def controllerCycle (floors_count : Nat) (chOpen : Bool) (s : CtrlState)
    (evt : BuildingEvent) : Except ControllerPanic (CtrlState × List BuildingCommand) :=
  match handleEvent s evt with
  | .error k => .error k
  | .ok (s1, c1) =>
    if chOpen = false ∧ c1 ≠ [] then .error .sendFailure
    else if chOpen = false ∧ (process_waiting_list s1.cars s1.pending).2.2 ≠ [] then
      .error .sendFailure
    else if printStateCheck floors_count (process_waiting_list s1.cars s1.pending).1 then
      .error .printIndexOutOfBounds
    else
      .ok (⟨(process_waiting_list s1.cars s1.pending).1,
          (process_waiting_list s1.cars s1.pending).2.1⟩,
        c1 ++ (process_waiting_list s1.cars s1.pending).2.2)

/-- `vec![ElevatorButtonsInfo::default(); elevator_count]` and the empty
pending set. -/
def initialState (elevator_count : Nat) : CtrlState :=
  ⟨List.replicate elevator_count {}, []⟩

/-- Run the event loop over a list of inbound events with an open command
channel, returning the final state or the first panic. -/
def runEvents (floors_count : Nat) (s : CtrlState) :
    List BuildingEvent → Except ControllerPanic CtrlState
  | [] => .ok s
  | e :: rest =>
    match controllerCycle floors_count true s e with
    | .ok (s1, _) => runEvents floors_count s1 rest
    | .error k => .error k

/-- `controller(elevator_count, floors_count, ..)` run on a finite inbound
event stream (the stream closing after the last event). -/
def controllerRun (floors_count elevator_count : Nat) (evts : List BuildingEvent) :
    Except ControllerPanic CtrlState :=
  runEvents floors_count (initialState elevator_count) evts

/-- Like `runEvents` but also logging every command sent. -/
def runEventsLog (floors_count : Nat) (s : CtrlState) :
    List BuildingEvent → Except ControllerPanic (CtrlState × List BuildingCommand)
  | [] => .ok (s, [])
  | e :: rest =>
    match controllerCycle floors_count true s e with
    | .ok (s1, c1) =>
      match runEventsLog floors_count s1 rest with
      | .ok (s2, c2) => .ok (s2, c1 ++ c2)
      | .error k => .error k
    | .error k => .error k

/-- How the controller task ends: `while let Ok(evt) = events_rx.recv()`
exits cleanly when the event stream closes, and any `unwrap` panic aborts
the task. -/
inductive LoopResult
  | cleanExit : CtrlState → LoopResult
  | panicked : ControllerPanic → LoopResult
deriving DecidableEq

/-- The controller event loop with an explicit channel-open flag. -/
def controllerLoop (floors_count : Nat) (chOpen : Bool) (s : CtrlState) :
    List BuildingEvent → LoopResult
  | [] => .cleanExit s
  | e :: rest =>
    match controllerCycle floors_count chOpen s e with
    | .ok (s1, _) => controllerLoop floors_count chOpen s1 rest
    | .error k => .panicked k

/-! ## Specification-side predicates -/

/-- The spec's direction invariant: `direction == None ⟺ stops.isEmpty()`. -/
def invP (e : ElevatorButtonsInfo) : Prop :=
  e.direction = none ↔ e.should_visit = ∅

instance : DecidablePred invP := fun e => by unfold invP; infer_instance

/-- A car in a state the controller can actually reach: the direction
invariant holds and a busy car always has a stop ahead in its scan
direction. -/
def goodCar (e : ElevatorButtonsInfo) : Prop :=
  invP e ∧ (e.should_visit ≠ ∅ → e.next_step ≠ none)

instance : DecidablePred goodCar := fun e => by unfold goodCar; infer_instance

/-- The spec's candidate notion for `selectCar`: idle, or moving in the
requested direction with the floor inside the current trip. -/
def candidateSpec (floor : FloorId) (dir : Direction) (e : ElevatorButtonsInfo) : Prop :=
  e.should_visit = ∅ ∨
    (e.direction = some dir ∧ ∃ r, e.current_trip = some r ∧ r.contains floor = true)

/-- Erase the field `passenger_count` (for the non-interference claim). -/
def scrub (e : ElevatorButtonsInfo) : ElevatorButtonsInfo :=
  { e with passenger_count := 0 }

def scrubState (s : CtrlState) : CtrlState :=
  ⟨s.cars.map scrub, s.pending⟩

/-- Erase `passenger_count` from a run result, keeping the commands and the
panic behaviour intact. -/
def scrubRes :
    Except ControllerPanic (CtrlState × List BuildingCommand) →
      Except ControllerPanic (CtrlState × List BuildingCommand)
  | .ok (s, c) => .ok (scrubState s, c)
  | .error k => .error k

/-- Index `j` holds a candidate car for the call `(floor, dir)`. -/
def candAt (floor : FloorId) (dir : Direction) (cars : List ElevatorButtonsInfo) (j : ℕ) : Prop :=
  j < cars.length ∧ isCandidate floor dir (cars.getD j {}) = true

/-- Distance of the car at index `j` to `floor`. -/
def distAt (floor : FloorId) (cars : List ElevatorButtonsInfo) (j : ℕ) : ℤ :=
  (cars.getD j {}).distance_to floor

/-- Loop invariant of `find_best_elevator_match` after scanning the first `k`
cars: the running best is the first index among `[0, k)` attaining the
minimal candidate distance, or `none` when no candidate was seen. -/
def GoodBest (floor : FloorId) (dir : Direction) (cars : List ElevatorButtonsInfo) (k : ℕ) :
    Option (ℤ × ElevatorId) → Prop
  | none => ∀ j, j < k → ¬ candAt floor dir cars j
  | some (d0, i0) =>
    i0 < k ∧ candAt floor dir cars i0 ∧ d0 = distAt floor cars i0 ∧
      (∀ j, j < k → candAt floor dir cars j → d0 ≤ distAt floor cars j) ∧
      (∀ j, j < i0 → candAt floor dir cars j → d0 < distAt floor cars j)

/-! ## Basic lemmas about the ordered-set queries -/

theorem setMin_eq_none_iff {s : Finset ℕ} : setMin s = none ↔ s = ∅ := by
  unfold setMin
  split
  · rename_i h
    simp [Finset.nonempty_iff_ne_empty] at h
    simp [h]
  · rename_i h
    simp [Finset.not_nonempty_iff_eq_empty] at h
    simp [h]

theorem setMax_eq_none_iff {s : Finset ℕ} : setMax s = none ↔ s = ∅ := by
  unfold setMax
  split
  · rename_i h
    simp [Finset.nonempty_iff_ne_empty] at h
    simp [h]
  · rename_i h
    simp [Finset.not_nonempty_iff_eq_empty] at h
    simp [h]

theorem setMin_mem {s : Finset ℕ} {a : ℕ} (h : setMin s = some a) : a ∈ s := by
  unfold setMin at h
  split at h
  · cases h
    exact Finset.min'_mem _ _
  · cases h

theorem setMax_mem {s : Finset ℕ} {a : ℕ} (h : setMax s = some a) : a ∈ s := by
  unfold setMax at h
  split at h
  · cases h
    exact Finset.max'_mem _ _
  · cases h

theorem setMin_le {s : Finset ℕ} {a b : ℕ} (h : setMin s = some a) (hb : b ∈ s) : a ≤ b := by
  unfold setMin at h
  split at h
  · cases h
    exact Finset.min'_le _ _ hb
  · cases h

theorem le_setMax {s : Finset ℕ} {a b : ℕ} (h : setMax s = some a) (hb : b ∈ s) : b ≤ a := by
  unfold setMax at h
  split at h
  · cases h
    exact Finset.le_max' _ _ hb
  · cases h

theorem setMin_isSome {s : Finset ℕ} (h : s.Nonempty) : setMin s ≠ none := by
  intro hn
  rw [setMin_eq_none_iff] at hn
  rw [hn] at h
  exact Finset.not_nonempty_empty h

theorem setMax_isSome {s : Finset ℕ} (h : s.Nonempty) : setMax s ≠ none := by
  intro hn
  rw [setMax_eq_none_iff] at hn
  rw [hn] at h
  exact Finset.not_nonempty_empty h

namespace ElevatorButtonsInfo

theorem is_idle_true_iff {e : ElevatorButtonsInfo} :
    e.is_idle = true ↔ e.should_visit = ∅ := by
  simp [is_idle]

theorem is_idle_false_iff {e : ElevatorButtonsInfo} :
    e.is_idle = false ↔ e.should_visit ≠ ∅ := by
  simp [is_idle]

/-! ### `next_step` characterisations -/

theorem next_step_dir_none {e : ElevatorButtonsInfo} (h : e.direction = none) :
    e.next_step = none := by
  simp [next_step, h]

theorem next_step_up_none_iff {e : ElevatorButtonsInfo} (h : e.direction = some .Up) :
    e.next_step = none ↔ ∀ b ∈ e.should_visit, b < e.position := by
  simp only [next_step, h, setMin_eq_none_iff, Finset.filter_eq_empty_iff, not_le]

theorem next_step_down_none_iff {e : ElevatorButtonsInfo} (h : e.direction = some .Down) :
    e.next_step = none ↔ ∀ b ∈ e.should_visit, e.position < b := by
  simp only [next_step, h, setMax_eq_none_iff, Finset.filter_eq_empty_iff, not_le]

theorem next_step_up_some {e : ElevatorButtonsInfo} {a : ℕ} (h : e.direction = some .Up)
    (ha : e.next_step = some a) :
    a ∈ e.should_visit ∧ e.position ≤ a ∧ ∀ b ∈ e.should_visit, e.position ≤ b → a ≤ b := by
  simp only [next_step, h] at ha
  have hmem := setMin_mem ha
  rw [Finset.mem_filter] at hmem
  refine ⟨hmem.1, hmem.2, ?_⟩
  intro b hb hpb
  exact setMin_le ha (Finset.mem_filter.mpr ⟨hb, hpb⟩)

theorem next_step_down_some {e : ElevatorButtonsInfo} {a : ℕ} (h : e.direction = some .Down)
    (ha : e.next_step = some a) :
    a ∈ e.should_visit ∧ a ≤ e.position ∧ ∀ b ∈ e.should_visit, b ≤ e.position → b ≤ a := by
  simp only [next_step, h] at ha
  have hmem := setMax_mem ha
  rw [Finset.mem_filter] at hmem
  refine ⟨hmem.1, hmem.2, ?_⟩
  intro b hb hpb
  exact le_setMax ha (Finset.mem_filter.mpr ⟨hb, hpb⟩)

theorem next_step_up_isSome {e : ElevatorButtonsInfo} {b : ℕ} (h : e.direction = some .Up)
    (hb : b ∈ e.should_visit) (hpb : e.position ≤ b) : e.next_step ≠ none := by
  simp only [next_step, h]
  exact setMin_isSome ⟨b, Finset.mem_filter.mpr ⟨hb, hpb⟩⟩

theorem next_step_down_isSome {e : ElevatorButtonsInfo} {b : ℕ} (h : e.direction = some .Down)
    (hb : b ∈ e.should_visit) (hpb : b ≤ e.position) : e.next_step ≠ none := by
  simp only [next_step, h]
  exact setMax_isSome ⟨b, Finset.mem_filter.mpr ⟨hb, hpb⟩⟩

theorem dir_ne_none_of_next_step {e : ElevatorButtonsInfo} (h : e.next_step ≠ none) :
    e.direction ≠ none := by
  intro hd
  exact h (next_step_dir_none hd)

/-! ### `swap_direction` facts -/

theorem swap_position (e : ElevatorButtonsInfo) : e.swap_direction.position = e.position := by
  cases h : e.direction <;> simp [swap_direction, h]

theorem swap_should_visit (e : ElevatorButtonsInfo) :
    e.swap_direction.should_visit = e.should_visit := by
  cases h : e.direction <;> simp [swap_direction, h]

theorem swap_passenger_count (e : ElevatorButtonsInfo) :
    e.swap_direction.passenger_count = e.passenger_count := by
  cases h : e.direction <;> simp [swap_direction, h]

theorem swap_dir_some {e : ElevatorButtonsInfo} {d : Direction} (h : e.direction = some d) :
    e.swap_direction.direction = some d.flipDir := by
  simp [swap_direction, h]

theorem swap_dir_none {e : ElevatorButtonsInfo} (h : e.direction = none) :
    e.swap_direction.direction =
      if e.position < (setMin e.should_visit).getD 0 then some .Up else some .Down := by
  simp [swap_direction, h]

theorem swap_dir_isSome (e : ElevatorButtonsInfo) : e.swap_direction.direction ≠ none := by
  cases h : e.direction
  · rw [swap_dir_none h]
    split <;> simp
  · rw [swap_dir_some h]
    simp

/-- When the current sweep is exhausted but stops remain, reversing the
direction always yields a next stop. -/
theorem swap_next_step_some {e : ElevatorButtonsInfo} (hne : e.should_visit ≠ ∅)
    (hns : e.next_step = none) : e.swap_direction.next_step ≠ none := by
  have hnsv : e.swap_direction.should_visit = e.should_visit := swap_should_visit e
  have hpos : e.swap_direction.position = e.position := swap_position e
  cases hd : e.direction
  · -- direction was None: derived by comparing position to the smallest stop
    obtain ⟨m, hm⟩ : ∃ m, setMin e.should_visit = some m := by
      cases hsm : setMin e.should_visit
      · exact absurd (setMin_eq_none_iff.mp hsm) hne
      · exact ⟨_, rfl⟩
    have hmem : m ∈ e.should_visit := setMin_mem hm
    have hdir := swap_dir_none hd
    rw [hm] at hdir
    simp only [Option.getD_some] at hdir
    have hmem' : m ∈ e.swap_direction.should_visit := by rw [hnsv]; exact hmem
    by_cases hlt : e.position < m
    · rw [if_pos hlt] at hdir
      have hle : e.swap_direction.position ≤ m := by rw [hpos]; exact Nat.le_of_lt hlt
      exact next_step_up_isSome hdir hmem' hle
    · rw [if_neg hlt] at hdir
      have hle : m ≤ e.swap_direction.position := by rw [hpos]; exact Nat.le_of_not_lt hlt
      exact next_step_down_isSome hdir hmem' hle
  · rename_i d
    obtain ⟨b, hb⟩ : ∃ b, b ∈ e.should_visit := by
      rw [← Finset.nonempty_iff_ne_empty] at hne
      exact hne
    have hb' : b ∈ e.swap_direction.should_visit := by rw [hnsv]; exact hb
    cases d
    · -- Up exhausted: every stop is below the position, so Down has one
      have hall := (next_step_up_none_iff hd).mp hns
      have hdir := swap_dir_some hd
      have hle : b ≤ e.swap_direction.position := by
        rw [hpos]
        exact Nat.le_of_lt (hall b hb)
      exact next_step_down_isSome hdir hb' hle
    · -- Down exhausted: every stop is above the position, so Up has one
      have hall := (next_step_down_none_iff hd).mp hns
      have hdir := swap_dir_some hd
      have hle : e.swap_direction.position ≤ b := by
        rw [hpos]
        exact Nat.le_of_lt (hall b hb)
      exact next_step_up_isSome hdir hb' hle



end ElevatorButtonsInfo

/-! ### `assignStop` facts -/

theorem assignStop_should_visit (e : ElevatorButtonsInfo) (f : FloorId) :
    (assignStop e f).should_visit = insert f e.should_visit := by
  simp only [assignStop]
  split
  · exact ElevatorButtonsInfo.swap_should_visit _
  · rfl

theorem assignStop_position (e : ElevatorButtonsInfo) (f : FloorId) :
    (assignStop e f).position = e.position := by
  simp only [assignStop]
  split
  · exact ElevatorButtonsInfo.swap_position _
  · rfl

theorem assignStop_passenger_count (e : ElevatorButtonsInfo) (f : FloorId) :
    (assignStop e f).passenger_count = e.passenger_count := by
  simp only [assignStop]
  split
  · exact ElevatorButtonsInfo.swap_passenger_count _
  · rfl

theorem assignStop_next_step (e : ElevatorButtonsInfo) (f : FloorId) :
    (assignStop e f).next_step ≠ none := by
  simp only [assignStop]
  split
  · rename_i h
    refine ElevatorButtonsInfo.swap_next_step_some ?_ h
    simp
  · rename_i h
    exact h

theorem assignStop_dir_isSome (e : ElevatorButtonsInfo) (f : FloorId) :
    (assignStop e f).direction ≠ none := by
  simp only [assignStop]
  split
  · exact ElevatorButtonsInfo.swap_dir_isSome _
  · rename_i h
    exact ElevatorButtonsInfo.dir_ne_none_of_next_step h

/-- The insert-and-fix step always leaves the car in a reachable
configuration, whatever the input car was. -/
theorem assignStop_good (e : ElevatorButtonsInfo) (f : FloorId) : goodCar (assignStop e f) := by
  constructor
  · unfold invP
    rw [assignStop_should_visit]
    have h1 := assignStop_dir_isSome e f
    have h2 : insert f e.should_visit ≠ ∅ := by simp
    constructor
    · intro h
      exact absurd h h1
    · intro h
      exact absurd h h2
  · intro _
    exact assignStop_next_step e f

/-! ## Characterising `find_best_elevator_match` -/

theorem goodBest_step (floor : FloorId) (dir : Direction) {cars : List ElevatorButtonsInfo}
    {k : ℕ} {best : Option (ℤ × ElevatorId)} (hk : k < cars.length)
    (h : GoodBest floor dir cars k best) :
    GoodBest floor dir cars (k + 1) (betterCandidate floor dir best k (cars.getD k {})) := by
  by_cases hc : isCandidate floor dir (cars.getD k {}) = true
  · have hck : candAt floor dir cars k := ⟨hk, hc⟩
    cases best with
    | none =>
      simp only [GoodBest] at h
      simp only [betterCandidate, if_pos hc, GoodBest]
      refine ⟨Nat.lt_succ_self _, hck, rfl, ?_, ?_⟩
      · intro j hj hcj
        rcases Nat.lt_succ_iff_lt_or_eq.mp hj with hj' | hj'
        · exact absurd hcj (h j hj')
        · subst hj'
          exact le_refl _
      · intro j hj hcj
        exact absurd hcj (h j hj)
    | some pr =>
      obtain ⟨d0, i0⟩ := pr
      simp only [GoodBest] at h
      obtain ⟨hik, hci, hd0, hmin, hstrict⟩ := h
      by_cases hlt : (cars.getD k {}).distance_to floor < d0
      · simp only [betterCandidate, if_pos hc, if_pos hlt, GoodBest]
        refine ⟨Nat.lt_succ_self _, hck, rfl, ?_, ?_⟩
        · intro j hj hcj
          rcases Nat.lt_succ_iff_lt_or_eq.mp hj with hj' | hj'
          · have := hmin j hj' hcj
            have : d0 ≤ distAt floor cars j := this
            exact le_of_lt (lt_of_lt_of_le hlt this)
          · subst hj'
            exact le_refl _
        · intro j hj hcj
          exact lt_of_lt_of_le hlt (hmin j hj hcj)
      · simp only [betterCandidate, if_pos hc, if_neg hlt, GoodBest]
        refine ⟨Nat.lt_succ_of_lt hik, hci, hd0, ?_, hstrict⟩
        intro j hj hcj
        rcases Nat.lt_succ_iff_lt_or_eq.mp hj with hj' | hj'
        · exact hmin j hj' hcj
        · subst hj'
          exact le_of_not_lt hlt
  · have hb : betterCandidate floor dir best k (cars.getD k {}) = best := by
      simp only [betterCandidate, if_neg hc]
    rw [hb]
    cases best with
    | none =>
      simp only [GoodBest] at h ⊢
      intro j hj hcj
      rcases Nat.lt_succ_iff_lt_or_eq.mp hj with hj' | hj'
      · exact h j hj' hcj
      · subst hj'
        exact hc hcj.2
    | some pr =>
      obtain ⟨d0, i0⟩ := pr
      simp only [GoodBest] at h ⊢
      obtain ⟨hik, hci, hd0, hmin, hstrict⟩ := h
      refine ⟨Nat.lt_succ_of_lt hik, hci, hd0, ?_, hstrict⟩
      intro j hj hcj
      rcases Nat.lt_succ_iff_lt_or_eq.mp hj with hj' | hj'
      · exact hmin j hj' hcj
      · subst hj'
        exact absurd hcj.2 hc

theorem goodBest_final {floor : FloorId} {dir : Direction} {cars : List ElevatorButtonsInfo}
    {k : ℕ} {best : Option (ℤ × ElevatorId)} (hk : cars.length ≤ k)
    (h : GoodBest floor dir cars k best) : GoodBest floor dir cars cars.length best := by
  cases best with
  | none =>
    simp only [GoodBest] at h ⊢
    intro j hj
    exact h j (lt_of_lt_of_le hj hk)
  | some pr =>
    obtain ⟨d0, i0⟩ := pr
    simp only [GoodBest] at h ⊢
    obtain ⟨hik, hci, hd0, hmin, hstrict⟩ := h
    refine ⟨hci.1, hci, hd0, ?_, hstrict⟩
    intro j hj hcj
    exact hmin j (lt_of_lt_of_le hj hk) hcj

theorem findBestAux_goodBest (floor : FloorId) (dir : Direction)
    (cars : List ElevatorButtonsInfo) :
    ∀ (l : List ElevatorButtonsInfo) (k : ℕ) (best : Option (ℤ × ElevatorId)),
      cars.drop k = l → GoodBest floor dir cars k best →
      GoodBest floor dir cars cars.length (findBestAux floor dir l k best) := by
  intro l
  induction l with
  | nil =>
    intro k best hdrop h
    have hk : cars.length ≤ k := by
      by_contra hk
      push_neg at hk
      have := List.drop_eq_nil_iff.mp hdrop
      omega
    exact goodBest_final hk h
  | cons e l ih =>
    intro k best hdrop h
    have hk : k < cars.length := by
      by_contra hk
      push_neg at hk
      rw [List.drop_eq_nil_of_le hk] at hdrop
      cases hdrop
    have hget : cars.getD k {} = e := by
      have h1 : cars.drop k = cars.getD k {} :: cars.drop (k + 1) := by
        rw [List.getD_eq_getElem cars {} hk]
        exact List.drop_eq_getElem_cons hk
      rw [h1] at hdrop
      exact (List.cons.injEq _ _ _ _ ▸ hdrop).1
    have hdrop' : cars.drop (k + 1) = l := by
      have h1 : cars.drop k = cars.getD k {} :: cars.drop (k + 1) := by
        rw [List.getD_eq_getElem cars {} hk]
        exact List.drop_eq_getElem_cons hk
      rw [h1] at hdrop
      exact (List.cons.injEq _ _ _ _ ▸ hdrop).2
    have hstep := goodBest_step floor dir hk h
    rw [hget] at hstep
    simp only [findBestAux]
    exact ih (k + 1) _ hdrop' hstep

/-- `find_best_elevator_match` returns `None` exactly when no car is a
candidate. -/
theorem find_best_none_iff {floor : FloorId} {dir : Direction}
    {cars : List ElevatorButtonsInfo} :
    find_best_elevator_match floor dir cars = none ↔
      ∀ j, j < cars.length → isCandidate floor dir (cars.getD j {}) = false := by
  have hG := findBestAux_goodBest floor dir cars cars 0 none rfl (by
    simp only [GoodBest]
    omega)
  unfold find_best_elevator_match
  rw [Option.map_eq_none']
  cases hb : findBestAux floor dir cars 0 none with
  | none =>
    rw [hb] at hG
    simp only [GoodBest] at hG
    refine iff_of_true rfl ?_
    intro j hj
    have hnc := hG j hj
    unfold candAt at hnc
    cases hh : isCandidate floor dir (cars.getD j {}) with
    | false => rfl
    | true => exact absurd ⟨hj, hh⟩ hnc
  | some pr =>
    obtain ⟨d0, i0⟩ := pr
    rw [hb] at hG
    simp only [GoodBest] at hG
    obtain ⟨hik, hci, _⟩ := hG
    refine iff_of_false (by simp) ?_
    intro hall
    have := hall i0 hci.1
    rw [hci.2] at this
    cases this

/-- What `find_best_elevator_match` guarantees about a returned id: it is a
candidate of minimal distance, and among the minimal-distance candidates it
is the one with the lowest index. -/
theorem find_best_some_spec {floor : FloorId} {dir : Direction}
    {cars : List ElevatorButtonsInfo} {i : ElevatorId}
    (h : find_best_elevator_match floor dir cars = some i) :
    i < cars.length ∧ isCandidate floor dir (cars.getD i {}) = true ∧
      (∀ j, j < cars.length → isCandidate floor dir (cars.getD j {}) = true →
        distAt floor cars i ≤ distAt floor cars j) ∧
      (∀ j, j < cars.length → isCandidate floor dir (cars.getD j {}) = true →
        distAt floor cars j = distAt floor cars i → i ≤ j) := by
  have hG := findBestAux_goodBest floor dir cars cars 0 none rfl (by
    simp only [GoodBest]
    omega)
  unfold find_best_elevator_match at h
  rw [Option.map_eq_some'] at h
  obtain ⟨pr, hpr, hsnd⟩ := h
  obtain ⟨d0, i0⟩ := pr
  cases hsnd
  rw [hpr] at hG
  simp only [GoodBest] at hG
  obtain ⟨hik, hci, hd0, hmin, hstrict⟩ := hG
  refine ⟨hci.1, hci.2, ?_, ?_⟩
  · intro j hj hcj
    rw [← hd0]
    exact hmin j hj ⟨hj, hcj⟩
  · intro j hj hcj heq
    by_contra hji
    push_neg at hji
    have := hstrict j hji ⟨hj, hcj⟩
    rw [heq, hd0] at this
    exact lt_irrefl _ this

theorem find_best_some_lt {floor : FloorId} {dir : Direction}
    {cars : List ElevatorButtonsInfo} {i : ElevatorId}
    (h : find_best_elevator_match floor dir cars = some i) : i < cars.length :=
  (find_best_some_spec h).1

theorem find_best_some_cand {floor : FloorId} {dir : Direction}
    {cars : List ElevatorButtonsInfo} {i : ElevatorId}
    (h : find_best_elevator_match floor dir cars = some i) :
    isCandidate floor dir (cars.getD i {}) = true :=
  (find_best_some_spec h).2.1

/-- Membership form of `find_best_none_iff`. -/
theorem find_best_none_iff_mem {floor : FloorId} {dir : Direction}
    {cars : List ElevatorButtonsInfo} :
    find_best_elevator_match floor dir cars = none ↔
      ∀ e ∈ cars, isCandidate floor dir e = false := by
  rw [find_best_none_iff]
  constructor
  · intro h e he
    obtain ⟨j, hj, rfl⟩ := List.getElem_of_mem he
    have := h j hj
    rwa [List.getD_eq_getElem cars {} hj] at this
  · intro h j hj
    refine h _ ?_
    rw [List.getD_eq_getElem cars {} hj]
    exact List.getElem_mem _

/-- Under the direction invariant, the Boolean candidate test of the code
agrees with the spec's candidate notion. -/
theorem isCandidate_iff_spec {floor : FloorId} {dir : Direction} {e : ElevatorButtonsInfo}
    (hinv : invP e) : isCandidate floor dir e = true ↔ candidateSpec floor dir e := by
  unfold isCandidate candidateSpec
  by_cases hid : e.should_visit = ∅
  · simp [ElevatorButtonsInfo.is_idle, hid]
  · have hidle : e.is_idle = false := ElevatorButtonsInfo.is_idle_false_iff.mpr hid
    have hdir : e.direction ≠ none := fun h => hid (hinv.mp h)
    obtain ⟨d, hd⟩ := Option.ne_none_iff_exists'.mp hdir
    have hne : e.should_visit.Nonempty := Finset.nonempty_iff_ne_empty.mpr hid
    obtain ⟨mn, hmn⟩ : ∃ a, setMin e.should_visit = some a := by
      cases hx : setMin e.should_visit
      · exact absurd (setMin_eq_none_iff.mp hx) hid
      · exact ⟨_, rfl⟩
    obtain ⟨mx, hmx⟩ : ∃ a, setMax e.should_visit = some a := by
      cases hx : setMax e.should_visit
      · exact absurd (setMax_eq_none_iff.mp hx) hid
      · exact ⟨_, rfl⟩
    have htrip : e.current_trip =
        some (match d with
          | .Up => ⟨e.position, mx⟩
          | .Down => ⟨e.position, mn⟩) := by
      cases d <;> simp [ElevatorButtonsInfo.current_trip, hd, hmn, hmx]
    rw [hidle, hd, htrip]
    cases d <;>
      simp only [Option.getD_some, Bool.false_or, Bool.and_eq_true, decide_eq_true_eq,
        Option.some.injEq] <;>
      constructor
    · rintro ⟨hcont, rfl⟩
      exact Or.inr ⟨rfl, ⟨e.position, mx⟩, rfl, hcont⟩
    · rintro (h | ⟨hdd, r, hr, hcont⟩)
      · exact absurd h hid
      · cases hr
        cases hdd
        exact ⟨hcont, rfl⟩
    · rintro ⟨hcont, rfl⟩
      exact Or.inr ⟨rfl, ⟨e.position, mn⟩, rfl, hcont⟩
    · rintro (h | ⟨hdd, r, hr, hcont⟩)
      · exact absurd h hid
      · cases hr
        cases hdd
        exact ⟨hcont, rfl⟩


/-! ## Claim C1: `current_trip` ranges -/

/-- C1 (counterexample): the claim says `currentTrip()` is the closed range
`[position, max(stops)]` for `Up` and `[min(stops), position]` for `Down`,
both endpoints included.  The code returns Rust half-open ranges: an `Up`
car at floor 0 with stops `{5}` gets the range `0..5`, which does not
contain its endpoint 5; a `Down` car at floor 5 with stops `{2}` gets the
range `5..2`, which contains nothing — in particular not 3, although
`3 ∈ [2, 5]`. -/
theorem claim_C1_counterexample :
    (ElevatorButtonsInfo.current_trip ⟨0, 0, {5}, some .Up⟩ = some ⟨0, 5⟩ ∧
      FloorRange.contains ⟨0, 5⟩ 5 = false) ∧
    (ElevatorButtonsInfo.current_trip ⟨5, 0, {2}, some .Down⟩ = some ⟨5, 2⟩ ∧
      FloorRange.contains ⟨5, 2⟩ 3 = false) := by
  decide

/-- C1 (amended): for a car with a direction and non-empty stops,
`current_trip()` returns the half-open Rust range `position..max(stops)`
for `Up` and `position..min(stops)` for `Down`; a floor lies in the `Up`
range iff `position ≤ floor < max(stops)` (the upper endpoint excluded),
a floor lies in the `Down` range iff `position ≤ floor < min(stops)`
(so the `Down` range is empty whenever `min(stops) ≤ position`); for an
idle car, or one without a direction, it returns `None`. -/
theorem claim_C1_current_trip (e : ElevatorButtonsInfo) :
    (e.should_visit = ∅ → e.current_trip = none) ∧
    (e.direction = none → e.current_trip = none) ∧
    (∀ M : ℕ, e.direction = some .Up → setMax e.should_visit = some M →
      e.current_trip = some ⟨e.position, M⟩ ∧
      ∀ x : ℕ, FloorRange.contains ⟨e.position, M⟩ x = true ↔ e.position ≤ x ∧ x < M) ∧
    (∀ m : ℕ, e.direction = some .Down → setMin e.should_visit = some m →
      e.current_trip = some ⟨e.position, m⟩ ∧
      (∀ x : ℕ, FloorRange.contains ⟨e.position, m⟩ x = true ↔ e.position ≤ x ∧ x < m) ∧
      (m ≤ e.position → ∀ x : ℕ, FloorRange.contains ⟨e.position, m⟩ x = false)) := by
  refine ⟨?_, ?_, ?_, ?_⟩
  · intro h
    have hmn : setMin e.should_visit = none := setMin_eq_none_iff.mpr h
    have hmx : setMax e.should_visit = none := setMax_eq_none_iff.mpr h
    cases hd : e.direction <;>
      simp [ElevatorButtonsInfo.current_trip, hd, hmn, hmx]
  · intro h
    simp [ElevatorButtonsInfo.current_trip, h]
  · intro M hd hM
    have hne : e.should_visit ≠ ∅ := by
      intro h
      rw [setMax_eq_none_iff.mpr h] at hM
      cases hM
    obtain ⟨mn, hmn⟩ : ∃ a, setMin e.should_visit = some a := by
      cases hx : setMin e.should_visit
      · exact absurd (setMin_eq_none_iff.mp hx) hne
      · exact ⟨_, rfl⟩
    constructor
    · simp [ElevatorButtonsInfo.current_trip, hd, hmn, hM]
    · intro x
      simp [FloorRange.contains]
  · intro m hd hm
    have hne : e.should_visit ≠ ∅ := by
      intro h
      rw [setMin_eq_none_iff.mpr h] at hm
      cases hm
    obtain ⟨mx, hmx⟩ : ∃ a, setMax e.should_visit = some a := by
      cases hx : setMax e.should_visit
      · exact absurd (setMax_eq_none_iff.mp hx) hne
      · exact ⟨_, rfl⟩
    refine ⟨?_, ?_, ?_⟩
    · simp [ElevatorButtonsInfo.current_trip, hd, hm, hmx]
    · intro x
      simp [FloorRange.contains]
    · intro hle x
      rcases Nat.lt_or_ge x m with hx | hx
      · unfold FloorRange.contains
        have hlt : x < e.position := by omega
        have hdec : decide (e.position ≤ x) = false := decide_eq_false (Nat.not_le.mpr hlt)
        rw [hdec, Bool.false_and]
      · unfold FloorRange.contains
        have hdec : decide (x < m) = false := decide_eq_false (Nat.not_lt.mpr hx)
        rw [hdec, Bool.and_false]

/-- Witness for the amended C1 at concrete cars: an `Up` car at floor 1
with stops `{3, 7}` has trip `1..7`, and a `Down` car at floor 5 with
stops `{2, 4}` has trip `5..2`, which contains no floor. -/
theorem claim_C1_current_trip_witness :
    ElevatorButtonsInfo.current_trip ⟨1, 0, {3, 7}, some .Up⟩ = some ⟨1, 7⟩ ∧
    (ElevatorButtonsInfo.current_trip ⟨5, 0, {2, 4}, some .Down⟩ = some ⟨5, 2⟩ ∧
      FloorRange.contains ⟨5, 2⟩ 3 = false) := by
  constructor
  · exact ((claim_C1_current_trip ⟨1, 0, {3, 7}, some .Up⟩).2.2.1 7 rfl (by decide)).1
  · have h := (claim_C1_current_trip ⟨5, 0, {2, 4}, some .Down⟩).2.2.2 2 rfl (by decide)
    exact ⟨h.1, h.2.2 (by decide) 3⟩

/-! ## Claim C4: `selectCar` / `find_best_elevator_match` -/

/-- C4: under the direction invariant, a car is a candidate iff it is idle
or moving in the requested direction with the call floor inside its
`current_trip()` range; the returned car is a candidate of minimal
`distance_to(floor)`, distance ties are broken by the lowest car id (the
function scans the ordered car slice, so no unordered iteration is
involved), and `None` is returned exactly when no candidate exists. -/
theorem claim_C4_selectCar (floor : FloorId) (dir : Direction)
    (cars : List ElevatorButtonsInfo) (hinv : ∀ e ∈ cars, invP e) :
    (∀ i, find_best_elevator_match floor dir cars = some i →
      i < cars.length ∧ candidateSpec floor dir (cars.getD i {}) ∧
      ∀ j, j < cars.length → candidateSpec floor dir (cars.getD j {}) →
        ((cars.getD i {}).distance_to floor ≤ (cars.getD j {}).distance_to floor ∧
          ((cars.getD j {}).distance_to floor = (cars.getD i {}).distance_to floor → i ≤ j))) ∧
    (find_best_elevator_match floor dir cars = none ↔
      ∀ j, j < cars.length → ¬ candidateSpec floor dir (cars.getD j {})) := by
  have hmem : ∀ j, j < cars.length → cars.getD j {} ∈ cars := by
    intro j hj
    rw [List.getD_eq_getElem cars {} hj]
    exact List.getElem_mem _
  have hbridge : ∀ j, j < cars.length →
      (isCandidate floor dir (cars.getD j {}) = true ↔ candidateSpec floor dir (cars.getD j {})) :=
    fun j hj => isCandidate_iff_spec (hinv _ (hmem j hj))
  constructor
  · intro i hi
    obtain ⟨hlen, hcand, hmin, htie⟩ := find_best_some_spec hi
    refine ⟨hlen, (hbridge i hlen).mp hcand, ?_⟩
    intro j hj hcj
    have hcj' := (hbridge j hj).mpr hcj
    exact ⟨hmin j hj hcj', htie j hj hcj'⟩
  · rw [find_best_none_iff]
    constructor
    · intro h j hj hcj
      have := h j hj
      rw [(hbridge j hj).mpr hcj] at this
      cases this
    · intro h j hj
      cases hh : isCandidate floor dir (cars.getD j {}) with
      | false => rfl
      | true => exact absurd ((hbridge j hj).mp hh) (h j hj)

/-- Witness for C4: two idle cars at floors 0 and 9 and the call `(3, Up)`:
the car at floor 0 (distance 3) beats the car at floor 9 (distance 6), and
the selected index 0 is a candidate of minimal distance. -/
theorem claim_C4_selectCar_witness :
    0 < ([({} : ElevatorButtonsInfo), { position := 9 }]).length ∧
    candidateSpec 3 .Up (([({} : ElevatorButtonsInfo), { position := 9 }]).getD 0 {}) := by
  have h := (claim_C4_selectCar 3 .Up [({} : ElevatorButtonsInfo), { position := 9 }]
    (by decide)).1 0 (by decide)
  exact ⟨h.1, h.2.1⟩


/-! ## Ordered-set insertion lemmas -/

theorem setMax_insert {s : Finset ℕ} {M : ℕ} (h : setMax s = some M) (a : ℕ) :
    setMax (insert a s) = some (max a M) := by
  cases hx : setMax (insert a s) with
  | none => exact absurd (setMax_eq_none_iff.mp hx) (by simp)
  | some c =>
    have hc_mem := setMax_mem hx
    have hcM : c ≤ max a M := by
      rcases Finset.mem_insert.mp hc_mem with rfl | hcs
      · exact le_max_left _ _
      · exact le_trans (le_setMax h hcs) (le_max_right _ _)
    have hMc : max a M ≤ c := by
      rcases Nat.le_total a M with hh | hh
      · rw [Nat.max_eq_right hh]
        exact le_setMax hx (Finset.mem_insert_of_mem (setMax_mem h))
      · rw [Nat.max_eq_left hh]
        exact le_setMax hx (Finset.mem_insert_self a s)
    rw [Nat.le_antisymm hcM hMc]

theorem setMin_insert {s : Finset ℕ} {m : ℕ} (h : setMin s = some m) (a : ℕ) :
    setMin (insert a s) = some (min a m) := by
  cases hx : setMin (insert a s) with
  | none => exact absurd (setMin_eq_none_iff.mp hx) (by simp)
  | some c =>
    have hc_mem := setMin_mem hx
    have hcm : min a m ≤ c := by
      rcases Finset.mem_insert.mp hc_mem with rfl | hcs
      · exact min_le_left _ _
      · exact le_trans (min_le_right _ _) (setMin_le h hcs)
    have hmc : c ≤ min a m := by
      rcases Nat.le_total a m with hh | hh
      · rw [Nat.min_eq_left hh]
        exact setMin_le hx (Finset.mem_insert_self a s)
      · rw [Nat.min_eq_right hh]
        exact setMin_le hx (Finset.mem_insert_of_mem (setMin_mem h))
    rw [Nat.le_antisymm hmc hcm]

/-! ## Trips of busy cars -/

theorem current_trip_up {e : ElevatorButtonsInfo} (hd : e.direction = some .Up)
    (hne : e.should_visit ≠ ∅) :
    ∃ M, setMax e.should_visit = some M ∧ e.current_trip = some ⟨e.position, M⟩ := by
  obtain ⟨mn, hmn⟩ : ∃ a, setMin e.should_visit = some a := by
    cases hx : setMin e.should_visit
    · exact absurd (setMin_eq_none_iff.mp hx) hne
    · exact ⟨_, rfl⟩
  obtain ⟨mx, hmx⟩ : ∃ a, setMax e.should_visit = some a := by
    cases hx : setMax e.should_visit
    · exact absurd (setMax_eq_none_iff.mp hx) hne
    · exact ⟨_, rfl⟩
  refine ⟨mx, hmx, ?_⟩
  simp [ElevatorButtonsInfo.current_trip, hd, hmn, hmx]

theorem current_trip_down {e : ElevatorButtonsInfo} (hd : e.direction = some .Down)
    (hne : e.should_visit ≠ ∅) :
    ∃ m, setMin e.should_visit = some m ∧ e.current_trip = some ⟨e.position, m⟩ := by
  obtain ⟨mn, hmn⟩ : ∃ a, setMin e.should_visit = some a := by
    cases hx : setMin e.should_visit
    · exact absurd (setMin_eq_none_iff.mp hx) hne
    · exact ⟨_, rfl⟩
  obtain ⟨mx, hmx⟩ : ∃ a, setMax e.should_visit = some a := by
    cases hx : setMax e.should_visit
    · exact absurd (setMax_eq_none_iff.mp hx) hne
    · exact ⟨_, rfl⟩
  refine ⟨mn, hmn, ?_⟩
  simp [ElevatorButtonsInfo.current_trip, hd, hmn, hmx]

/-- For a busy car the candidate test reduces to the trip-and-direction
check. -/
theorem isCandidate_busy {floor : ℕ} {dir : Direction} {e : ElevatorButtonsInfo}
    {d : Direction} (hne : e.should_visit ≠ ∅) (hd : e.direction = some d) :
    isCandidate floor dir e =
      ((e.current_trip.getD ⟨0, 0⟩).contains floor && decide (d = dir)) := by
  have hidle : e.is_idle = false := ElevatorButtonsInfo.is_idle_false_iff.mpr hne
  unfold isCandidate
  rw [hidle, Bool.false_or, hd]
  simp only [Option.some.injEq]

/-- An idle car is always a candidate. -/
theorem isCandidate_idle {floor : ℕ} {dir : Direction} {e : ElevatorButtonsInfo}
    (h : e.should_visit = ∅) : isCandidate floor dir e = true := by
  have hidle : e.is_idle = true := ElevatorButtonsInfo.is_idle_true_iff.mpr h
  unfold isCandidate
  rw [hidle, Bool.true_or]

theorem not_idle_of_not_cand {floor : ℕ} {dir : Direction} {e : ElevatorButtonsInfo}
    (h : isCandidate floor dir e = false) : e.should_visit ≠ ∅ := by
  intro hc
  rw [isCandidate_idle hc] at h
  cases h

/-! ## Structural facts about `processPair` -/

theorem processPair_no_match {st : PassState} {p : FloorId × Direction}
    (h : find_best_elevator_match p.1 p.2 st.cars = none) : processPair st p = st := by
  simp [processPair, h]

theorem processPair_matched_mem {st : PassState} {p : FloorId × Direction} {id : ElevatorId}
    (h : find_best_elevator_match p.1 p.2 st.cars = some id) :
    p ∈ (processPair st p).to_remove := by
  simp only [processPair, h]
  split <;> simp

theorem processPair_to_remove_mono (st : PassState) (p : FloorId × Direction) :
    ∀ q ∈ st.to_remove, q ∈ (processPair st p).to_remove := by
  intro q hq
  cases hf : find_best_elevator_match p.1 p.2 st.cars with
  | none =>
    rw [processPair_no_match hf]
    exact hq
  | some id =>
    simp only [processPair, hf]
    split <;> simp only [List.mem_append] <;> exact Or.inl hq

theorem processPair_cars_cases (st : PassState) (p : FloorId × Direction) :
    (processPair st p).cars = st.cars ∨
      ∃ id, find_best_elevator_match p.1 p.2 st.cars = some id ∧
        ¬(p.1 = (st.cars.getD id {}).position ∧ (st.cars.getD id {}).is_idle = false) ∧
        (processPair st p).cars = st.cars.set id (assignStop (st.cars.getD id {}) p.1) := by
  cases hf : find_best_elevator_match p.1 p.2 st.cars with
  | none =>
    left
    rw [processPair_no_match hf]
  | some id =>
    simp only [processPair, hf]
    split
    · left
      rfl
    · rename_i hskip
      right
      exact ⟨id, rfl, hskip, rfl⟩

/-! ## Claim C2: the skip in the reconciliation pass -/

/-- C2: during the reconciliation pass, a matched pair whose floor equals
the selected busy car's current position is skipped — the stop is not
inserted, no command is sent, the car state is untouched — yet the pair is
still marked for removal; and every pair marked for removal (skip or not)
is absent from the pending set the pass returns. -/
theorem claim_C2_skip_drops_call :
    (∀ (st : PassState) (p : FloorId × Direction) (id : ElevatorId),
      (∀ e ∈ st.cars, invP e) →
      find_best_elevator_match p.1 p.2 st.cars = some id →
      p.1 = (st.cars.getD id {}).position →
      (st.cars.getD id {}).is_idle = false →
      processPair st p = ⟨st.cars, st.to_remove ++ [p], st.cmds⟩) ∧
    (∀ (st : PassState) (p : FloorId × Direction) (id : ElevatorId),
      find_best_elevator_match p.1 p.2 st.cars = some id →
      p ∈ (processPair st p).to_remove) ∧
    (∀ (cars : List ElevatorButtonsInfo) (pending : List (FloorId × Direction))
      (p : FloorId × Direction),
      p ∈ (pending.foldl processPair ⟨cars, [], []⟩).to_remove →
      p ∉ (process_waiting_list cars pending).2.1) := by
  refine ⟨?_, ?_, ?_⟩
  · intro st p id _ hf hfloor hidle
    simp only [processPair, hf]
    rw [if_pos ⟨hfloor, hidle⟩]
  · intro st p id hf
    exact processPair_matched_mem hf
  · intro cars pending p hp
    simp only [process_waiting_list, List.mem_filter, decide_eq_true_eq]
    intro hmem
    exact hmem.2 hp

/-- Witness for C2: one car at floor 3 scanning up with stops `{5}`, and the
pending call `(3, Up)`: the car is matched (3 lies in its trip `3..5`), the
skip fires, and `processPair` only records the pair for removal. -/
theorem claim_C2_skip_drops_call_witness :
    processPair ⟨[⟨3, 0, {5}, some .Up⟩], [], []⟩ (3, .Up) =
      ⟨[⟨3, 0, {5}, some .Up⟩], [] ++ [(3, .Up)], []⟩ :=
  claim_C2_skip_drops_call.1 ⟨[⟨3, 0, {5}, some .Up⟩], [], []⟩ (3, .Up) 0
    (by decide) (by decide) (by decide) (by decide)


/-! ## Assigning a stop to a busy car never creates a candidacy -/

/-- Inserting a matched stop into a busy car keeps its direction and
position and does not enlarge its trip: any call that was not a candidate
for the car before the insertion still is not afterwards. -/
theorem assign_preserves_noncand {fq : ℕ} {dq : Direction} {e : ElevatorButtonsInfo}
    (hgood : goodCar e) (hne : e.should_visit ≠ ∅)
    (hcand : isCandidate fq dq e = true) (_hfq : fq ≠ e.position) :
    ∀ (f : ℕ) (d : Direction), isCandidate f d e = false →
      isCandidate f d (assignStop e fq) = false := by
  have hdir : e.direction ≠ none := fun h => hne (hgood.1.mp h)
  obtain ⟨d0, hd0⟩ := Option.ne_none_iff_exists'.mp hdir
  rw [isCandidate_busy hne hd0, Bool.and_eq_true] at hcand
  obtain ⟨hcont, _⟩ := hcand
  have hnef : (insert fq e.should_visit : Finset ℕ) ≠ ∅ := by simp
  cases d0 with
  | Up =>
    obtain ⟨M, hM, htrip⟩ := current_trip_up hd0 hne
    rw [htrip] at hcont
    simp only [Option.getD_some, FloorRange.contains, Bool.and_eq_true,
      decide_eq_true_eq] at hcont
    obtain ⟨h1, h2⟩ := hcont
    have hd1 : ({ e with should_visit := insert fq e.should_visit } :
        ElevatorButtonsInfo).direction = some .Up := hd0
    have hns : ({ e with should_visit := insert fq e.should_visit } :
        ElevatorButtonsInfo).next_step ≠ none :=
      ElevatorButtonsInfo.next_step_up_isSome hd1 (Finset.mem_insert_self fq _) h1
    have hassign : assignStop e fq = { e with should_visit := insert fq e.should_visit } := by
      simp only [assignStop]
      rw [if_neg hns]
    have hM1 : setMax (insert fq e.should_visit) = some M := by
      rw [setMax_insert hM fq, Nat.max_eq_right (le_of_lt h2)]
    have htrip1 : (assignStop e fq).current_trip = some ⟨e.position, M⟩ := by
      rw [hassign]
      obtain ⟨M2, hM2, ht2⟩ := current_trip_up hd1 hnef
      rw [hM1] at hM2
      cases hM2
      exact ht2
    intro f d hfd
    have hnef' : (assignStop e fq).should_visit ≠ ∅ := by
      rw [assignStop_should_visit]
      exact hnef
    have hd1' : (assignStop e fq).direction = some .Up := by
      rw [hassign]
      exact hd0
    rw [isCandidate_busy hnef' hd1', htrip1]
    rw [isCandidate_busy hne hd0, htrip] at hfd
    exact hfd
  | Down =>
    obtain ⟨m, hm, htrip⟩ := current_trip_down hd0 hne
    rw [htrip] at hcont
    simp only [Option.getD_some, FloorRange.contains, Bool.and_eq_true,
      decide_eq_true_eq] at hcont
    obtain ⟨h1, h2⟩ := hcont
    have hns0 : e.next_step ≠ none := hgood.2 hne
    obtain ⟨a, ha⟩ := Option.ne_none_iff_exists'.mp hns0
    obtain ⟨hamem, hale, _⟩ := ElevatorButtonsInfo.next_step_down_some hd0 ha
    have hd1 : ({ e with should_visit := insert fq e.should_visit } :
        ElevatorButtonsInfo).direction = some .Down := hd0
    have hns : ({ e with should_visit := insert fq e.should_visit } :
        ElevatorButtonsInfo).next_step ≠ none :=
      ElevatorButtonsInfo.next_step_down_isSome hd1 (Finset.mem_insert_of_mem hamem) hale
    have hassign : assignStop e fq = { e with should_visit := insert fq e.should_visit } := by
      simp only [assignStop]
      rw [if_neg hns]
    have hm1 : setMin (insert fq e.should_visit) = some fq := by
      rw [setMin_insert hm fq, Nat.min_eq_left (le_of_lt h2)]
    have htrip1 : (assignStop e fq).current_trip = some ⟨e.position, fq⟩ := by
      rw [hassign]
      obtain ⟨m2, hm2, ht2⟩ := current_trip_down hd1 hnef
      rw [hm1] at hm2
      cases hm2
      exact ht2
    intro f d hfd
    have hnef' : (assignStop e fq).should_visit ≠ ∅ := by
      rw [assignStop_should_visit]
      exact hnef
    have hd1' : (assignStop e fq).direction = some .Down := by
      rw [hassign]
      exact hd0
    rw [isCandidate_busy hnef' hd1', htrip1]
    rw [isCandidate_busy hne hd0, htrip] at hfd
    simp only [Option.getD_some] at hfd ⊢
    cases hdd : decide (Direction.Down = d) with
    | false => rw [Bool.and_false]
    | true =>
      rw [hdd, Bool.and_true] at hfd
      rw [Bool.and_true]
      cases hpf : decide (e.position ≤ f) with
      | false =>
        unfold FloorRange.contains
        rw [hpf, Bool.false_and]
      | true =>
        unfold FloorRange.contains at hfd ⊢
        rw [hpf, Bool.true_and] at hfd ⊢
        have hfm : ¬ f < m := by
          intro hh
          rw [decide_eq_true_eq.mpr] at hfd
          · cases hfd
          · exact hh
        exact decide_eq_false (fun hff => hfm (lt_trans hff h2))

/-- The matched car of `processPair` keeps every no-candidate verdict. -/
theorem processPair_find_none {st : PassState} {p : FloorId × Direction}
    (hgood : ∀ e ∈ st.cars, goodCar e) {f : ℕ} {d : Direction}
    (hnone : find_best_elevator_match f d st.cars = none) :
    find_best_elevator_match f d (processPair st p).cars = none := by
  rcases processPair_cars_cases st p with h | ⟨id, hid, hskip, h⟩
  · rw [h]
    exact hnone
  · rw [h]
    rw [find_best_none_iff_mem] at hnone ⊢
    intro e he
    rcases List.mem_or_eq_of_mem_set he with he' | rfl
    · exact hnone e he'
    · have hid_lt := find_best_some_lt hid
      have he0_mem : st.cars.getD id {} ∈ st.cars := by
        rw [List.getD_eq_getElem st.cars {} hid_lt]
        exact List.getElem_mem _
      have hgood0 := hgood _ he0_mem
      have hcand0 := find_best_some_cand hid
      have hfalse : isCandidate f d (st.cars.getD id {}) = false := hnone _ he0_mem
      have hne : (st.cars.getD id {}).should_visit ≠ ∅ := not_idle_of_not_cand hfalse
      have hidle : (st.cars.getD id {}).is_idle = false :=
        ElevatorButtonsInfo.is_idle_false_iff.mpr hne
      have hp1 : p.1 ≠ (st.cars.getD id {}).position := by
        intro hh
        exact hskip ⟨hh, hidle⟩
      exact assign_preserves_noncand hgood0 hne hcand0 hp1 f d hfalse

/-- `processPair` keeps every car reachable. -/
theorem processPair_good {st : PassState} {p : FloorId × Direction}
    (hgood : ∀ e ∈ st.cars, goodCar e) :
    ∀ e ∈ (processPair st p).cars, goodCar e := by
  rcases processPair_cars_cases st p with h | ⟨id, _, _, h⟩
  · rw [h]
    exact hgood
  · rw [h]
    intro e he
    rcases List.mem_or_eq_of_mem_set he with he' | rfl
    · exact hgood e he'
    · exact assignStop_good _ _


/-! ## The reconciliation pass as a fold -/

theorem process_waiting_list_eq (cars : List ElevatorButtonsInfo)
    (pending : List (FloorId × Direction)) :
    process_waiting_list cars pending =
      ((pending.foldl processPair ⟨cars, [], []⟩).cars,
        pending.filter fun p => decide (p ∉ (pending.foldl processPair ⟨cars, [], []⟩).to_remove),
        (pending.foldl processPair ⟨cars, [], []⟩).cmds) := rfl

theorem passFold_spec (l : List (FloorId × Direction)) :
    ∀ (st : PassState), (∀ e ∈ st.cars, goodCar e) →
      (∀ e ∈ (l.foldl processPair st).cars, goodCar e) ∧
      (∀ (f : ℕ) (d : Direction), find_best_elevator_match f d st.cars = none →
        find_best_elevator_match f d (l.foldl processPair st).cars = none) ∧
      (∀ q ∈ st.to_remove, q ∈ (l.foldl processPair st).to_remove) ∧
      (∀ p ∈ l, p ∉ (l.foldl processPair st).to_remove →
        find_best_elevator_match p.1 p.2 (l.foldl processPair st).cars = none) := by
  induction l with
  | nil =>
    intro st hgood
    refine ⟨hgood, fun f d h => h, fun q hq => hq, ?_⟩
    intro p hp
    cases hp
  | cons p l ih =>
    intro st hgood
    simp only [List.foldl_cons]
    have hgood' := processPair_good (p := p) hgood
    obtain ⟨ihGood, ihNone, ihMono, ihPend⟩ := ih (processPair st p) hgood'
    refine ⟨ihGood, ?_, ?_, ?_⟩
    · intro f d h
      exact ihNone f d (processPair_find_none hgood h)
    · intro q hq
      exact ihMono q (processPair_to_remove_mono st p q hq)
    · intro q hq hnot
      rcases List.mem_cons.mp hq with rfl | hq'
      · cases hf : find_best_elevator_match q.1 q.2 st.cars with
        | some id => exact absurd (ihMono q (processPair_matched_mem hf)) hnot
        | none =>
          refine ihNone q.1 q.2 ?_
          rw [processPair_no_match hf]
          exact hf
      · exact ihPend q hq' hnot

theorem passFold_noop (l : List (FloorId × Direction)) :
    ∀ (st : PassState), (∀ p ∈ l, find_best_elevator_match p.1 p.2 st.cars = none) →
      l.foldl processPair st = st := by
  induction l with
  | nil =>
    intro st _
    rfl
  | cons p l ih =>
    intro st h
    simp only [List.foldl_cons]
    rw [processPair_no_match (h p (List.mem_cons_self p l))]
    exact ih st fun q hq => h q (List.mem_cons_of_mem p hq)

/-! ## Claim C5: idempotence of the reconciliation pass -/

/-- C5 (counterexample): the claim quantifies over every controller state,
but for the state with one car at floor 2 scanning `Down` with stops `{8}`
(a state the direction invariant allows but no run reaches, since the car
has no stop at or below its position) and pending calls
`[(5, Up), (6, Down)]`, the first pass matches `(6, Down)` (the Rust `Down`
trip `2..8` contains 6), reverses the car to `Up`, and leaves `(5, Up)`
pending; the immediately following second pass then matches `(5, Up)`
against the now-`Up` car: it mutates the car, removes the pair, and emits a
command — not a no-op. -/
theorem claim_C5_counterexample :
    process_waiting_list [⟨2, 0, {8}, some .Down⟩] [(5, .Up), (6, .Down)] =
      ([⟨2, 0, {6, 8}, some .Up⟩], [(5, .Up)], [.GoToFloor 0 6]) ∧
    process_waiting_list [⟨2, 0, {6, 8}, some .Up⟩] [(5, .Up)] =
      ([⟨2, 0, {5, 6, 8}, some .Up⟩], [], [.GoToFloor 0 5]) := by
  constructor
  · decide
  · decide

/-- C5 (amended): on reachable car states — every car satisfies the
direction invariant and, when busy, has a next stop in its scan direction —
running `process_waiting_list` a second time immediately after a first run
changes no car, removes no pending pair, and emits no command. -/
theorem claim_C5_idempotent (cars : List ElevatorButtonsInfo)
    (pending : List (FloorId × Direction)) (hgood : ∀ e ∈ cars, goodCar e) :
    process_waiting_list (process_waiting_list cars pending).1
        (process_waiting_list cars pending).2.1 =
      ((process_waiting_list cars pending).1, (process_waiting_list cars pending).2.1, []) := by
  obtain ⟨hg, hnone, hmono, hpend⟩ := passFold_spec pending ⟨cars, [], []⟩ hgood
  have hfexp : ∀ p ∈ (process_waiting_list cars pending).2.1,
      find_best_elevator_match p.1 p.2 (process_waiting_list cars pending).1 = none := by
    intro p hp
    simp only [process_waiting_list, List.mem_filter, decide_eq_true_eq] at hp
    exact hpend p hp.1 hp.2
  have hnoop : (process_waiting_list cars pending).2.1.foldl processPair
      ⟨(process_waiting_list cars pending).1, [], []⟩ =
        ⟨(process_waiting_list cars pending).1, [], []⟩ :=
    passFold_noop _ _ hfexp
  rw [process_waiting_list_eq ((process_waiting_list cars pending).1)
    ((process_waiting_list cars pending).2.1), hnoop]
  simp

/-- Witness for the amended C5: one idle car at floor 0 and the pending call
`(2, Up)`; the first pass assigns the call, the second is a no-op. -/
theorem claim_C5_idempotent_witness :
    process_waiting_list (process_waiting_list [{}] [(2, .Up)]).1
        (process_waiting_list [{}] [(2, .Up)]).2.1 =
      ((process_waiting_list [{}] [(2, .Up)]).1,
        (process_waiting_list [{}] [(2, .Up)]).2.1, []) :=
  claim_C5_idempotent [{}] [(2, .Up)] (by decide)


/-! ## Reachable car configurations -/

theorem invP_of_busy {e : ElevatorButtonsInfo} (h1 : e.direction ≠ none)
    (h2 : e.should_visit ≠ ∅) : invP e :=
  ⟨fun h => absurd h h1, fun h => absurd h h2⟩

theorem invP_of_idle {e : ElevatorButtonsInfo} (h1 : e.direction = none)
    (h2 : e.should_visit = ∅) : invP e :=
  ⟨fun _ => h2, fun _ => h1⟩

theorem goodCar_of_busy {e : ElevatorButtonsInfo} (h1 : e.direction ≠ none)
    (h2 : e.should_visit ≠ ∅) (h3 : e.next_step ≠ none) : goodCar e :=
  ⟨invP_of_busy h1 h2, fun _ => h3⟩

theorem goodCar_of_idle {e : ElevatorButtonsInfo} (h1 : e.direction = none)
    (h2 : e.should_visit = ∅) : goodCar e :=
  ⟨invP_of_idle h1 h2, fun h => absurd h2 h⟩

theorem swap_is_idle (e : ElevatorButtonsInfo) :
    e.swap_direction.is_idle = e.is_idle := by
  unfold ElevatorButtonsInfo.is_idle
  rw [ElevatorButtonsInfo.swap_should_visit]

theorem floorButtonUpdate_good (e : ElevatorButtonsInfo) (dest : ℕ) :
    goodCar (floorButtonUpdate e dest) :=
  assignStop_good _ _

/-- Everything the `AtFloor` arm guarantees about the updated car: the stop
is removed, the position updated, the result reachable; an emptied car goes
idle silently, a busy car reports its next stop; and an exhausted sweep
reverses the direction. -/
theorem atFloorUpdate_spec (e : ElevatorButtonsInfo) (floor : ℕ) :
    (atFloorUpdate e floor).1.should_visit = e.should_visit.erase floor ∧
    (atFloorUpdate e floor).1.position = floor ∧
    goodCar (atFloorUpdate e floor).1 ∧
    (e.should_visit.erase floor = ∅ →
      (atFloorUpdate e floor).1.direction = none ∧ (atFloorUpdate e floor).2 = none) ∧
    (e.should_visit.erase floor ≠ ∅ →
      ∃ nf : ℕ, (atFloorUpdate e floor).1.next_step = some nf ∧
        (atFloorUpdate e floor).2 = some nf ∧ (atFloorUpdate e floor).1.direction ≠ none) ∧
    (∀ d, e.direction = some d →
      ({ e with should_visit := e.should_visit.erase floor, position := floor } :
        ElevatorButtonsInfo).next_step = none →
      e.should_visit.erase floor ≠ ∅ →
      (atFloorUpdate e floor).1.direction = some d.flipDir) := by
  simp only [atFloorUpdate]
  set e1 : ElevatorButtonsInfo :=
    { e with should_visit := e.should_visit.erase floor, position := floor } with he1
  by_cases hc : e1.next_step = none ∧ e1.is_idle = false
  · rw [if_pos hc]
    have hidle2 : e1.swap_direction.is_idle = false := by
      rw [swap_is_idle]
      exact hc.2
    rw [if_pos hidle2]
    have hne1 : e1.should_visit ≠ ∅ := ElevatorButtonsInfo.is_idle_false_iff.mp hc.2
    have hsv2 : e1.swap_direction.should_visit = e.should_visit.erase floor :=
      ElevatorButtonsInfo.swap_should_visit e1
    have hns2 : e1.swap_direction.next_step ≠ none :=
      ElevatorButtonsInfo.swap_next_step_some hne1 hc.1
    obtain ⟨nf, hnf⟩ := Option.ne_none_iff_exists'.mp hns2
    refine ⟨hsv2, ElevatorButtonsInfo.swap_position e1, ?_, ?_, ?_, ?_⟩
    · exact goodCar_of_busy (ElevatorButtonsInfo.swap_dir_isSome e1)
        (by rw [hsv2]; exact hne1) hns2
    · intro h
      exact absurd h hne1
    · intro _
      exact ⟨nf, hnf, by rw [hnf, Option.getD_some], ElevatorButtonsInfo.swap_dir_isSome e1⟩
    · intro d hd _ _
      have hd1 : e1.direction = some d := hd
      exact ElevatorButtonsInfo.swap_dir_some hd1
  · rw [if_neg hc]
    by_cases hidle : e1.is_idle = false
    · rw [if_pos hidle]
      have hne1 : e1.should_visit ≠ ∅ := ElevatorButtonsInfo.is_idle_false_iff.mp hidle
      have hns : e1.next_step ≠ none := fun h => hc ⟨h, hidle⟩
      obtain ⟨nf, hnf⟩ := Option.ne_none_iff_exists'.mp hns
      refine ⟨rfl, rfl, ?_, ?_, ?_, ?_⟩
      · exact goodCar_of_busy (ElevatorButtonsInfo.dir_ne_none_of_next_step hns) hne1 hns
      · intro h
        exact absurd h hne1
      · intro _
        exact ⟨nf, hnf, by rw [hnf, Option.getD_some],
          ElevatorButtonsInfo.dir_ne_none_of_next_step hns⟩
      · intro d _ hns' _
        exact absurd hns' hns
    · rw [if_neg hidle]
      have hempty : e1.should_visit = ∅ := by
        cases hb : e1.is_idle with
        | false => exact absurd hb hidle
        | true => exact ElevatorButtonsInfo.is_idle_true_iff.mp hb
      have hsv1 : e1.should_visit = e.should_visit.erase floor := by rw [he1]
      refine ⟨hsv1, rfl, goodCar_of_idle rfl hempty, fun _ => ⟨rfl, rfl⟩, ?_, ?_⟩
      · intro h
        exact absurd (hsv1 ▸ hempty) h
      · intro d _ _ h
        exact absurd (hsv1 ▸ hempty) h

/-- The event handlers keep every car reachable. -/
theorem handleEvent_good {s : CtrlState} {evt : BuildingEvent} {s1 : CtrlState}
    {c1 : List BuildingCommand} (hgood : ∀ e ∈ s.cars, goodCar e)
    (h : handleEvent s evt = .ok (s1, c1)) : ∀ e ∈ s1.cars, goodCar e := by
  cases evt with
  | CallButtonPressed f d =>
    simp only [handleEvent] at h
    injection h with h'
    injection h' with ha hb
    rw [← ha]
    exact hgood
  | FloorButtonPressed id dest =>
    simp only [handleEvent] at h
    split at h
    · injection h with h'
      injection h' with ha hb
      rw [← ha]
      intro e he
      rcases List.mem_or_eq_of_mem_set he with he' | rfl
      · exact hgood e he'
      · exact floorButtonUpdate_good _ _
    · cases h
  | AtFloor id floor =>
    simp only [handleEvent] at h
    split at h
    · injection h with h'
      injection h' with ha hb
      rw [← ha]
      intro e he
      rcases List.mem_or_eq_of_mem_set he with he' | rfl
      · exact hgood e he'
      · exact (atFloorUpdate_spec _ _).2.2.1
    · cases h
  | Other =>
    simp only [handleEvent] at h
    injection h with h'
    injection h' with ha hb
    rw [← ha]
    exact hgood

/-- A successful event cycle leaves every car reachable, every still-pending
call with no candidate, and every car position inside the building. -/
theorem controllerCycle_ok_spec {floors : ℕ} {chOpen : Bool} {s : CtrlState}
    {evt : BuildingEvent} {s2 : CtrlState} {c : List BuildingCommand}
    (hgood : ∀ e ∈ s.cars, goodCar e)
    (h : controllerCycle floors chOpen s evt = .ok (s2, c)) :
    (∀ e ∈ s2.cars, goodCar e) ∧
      (∀ p ∈ s2.pending, find_best_elevator_match p.1 p.2 s2.cars = none) ∧
      (∀ e ∈ s2.cars, e.position < floors) := by
  unfold controllerCycle at h
  split at h
  · cases h
  · rename_i s1 c1 hh
    split at h
    · cases h
    · split at h
      · cases h
      · split at h
        · cases h
        · rename_i hg1 hg2 hprint
          injection h with h'
          injection h' with ha hb
          have hgood1 := handleEvent_good hgood hh
          obtain ⟨hfg, _, _, hfp⟩ := passFold_spec s1.pending ⟨s1.cars, [], []⟩ hgood1
          have hcars2 : s2.cars = (process_waiting_list s1.cars s1.pending).1 := by
            rw [← ha]
          have hpend2 : s2.pending = (process_waiting_list s1.cars s1.pending).2.1 := by
            rw [← ha]
          refine ⟨?_, ?_, ?_⟩
          · rw [hcars2]
            exact hfg
          · intro p hp
            rw [hpend2] at hp
            simp only [process_waiting_list, List.mem_filter, decide_eq_true_eq] at hp
            rw [hcars2]
            exact hfp p hp.1 hp.2
          · intro e he
            rw [hcars2] at he
            have hfalse : printStateCheck floors (process_waiting_list s1.cars s1.pending).1
                = false := by
              cases hbb : printStateCheck floors (process_waiting_list s1.cars s1.pending).1 with
              | false => rfl
              | true => exact absurd hbb hprint
            unfold printStateCheck at hfalse
            have := List.any_eq_false.mp hfalse e he
            simp only [decide_eq_true_eq] at this
            exact Nat.lt_of_not_le this

theorem ReachGood_initial (n : ℕ) : ∀ e ∈ (initialState n).cars, goodCar e := by
  intro e he
  rw [List.eq_of_mem_replicate he]
  exact goodCar_of_idle rfl rfl

/-- Along a successful run, the final state is either the initial one or a
state a successful cycle just produced. -/
theorem runEvents_reach {floors : ℕ} :
    ∀ (evts : List BuildingEvent) (s s' : CtrlState), (∀ e ∈ s.cars, goodCar e) →
      runEvents floors s evts = .ok s' →
      s' = s ∨ ((∀ e ∈ s'.cars, goodCar e) ∧
        (∀ p ∈ s'.pending, find_best_elevator_match p.1 p.2 s'.cars = none) ∧
        ∀ e ∈ s'.cars, e.position < floors) := by
  intro evts
  induction evts with
  | nil =>
    intro s s' _ h
    left
    injection h with h'
    rw [h']
  | cons e rest ih =>
    intro s s' hg h
    unfold runEvents at h
    split at h
    · rename_i s1 c1 hc
      right
      obtain ⟨hg1, hpend1, hpos1⟩ := controllerCycle_ok_spec hg hc
      rcases ih s1 s' hg1 h with rfl | hall
      · exact ⟨hg1, hpend1, hpos1⟩
      · exact hall
    · cases h

/-! ## Claim C3: the direction invariant -/

/-- C3: for every sequence of building events the controller processes
without aborting, every car of the resulting state (hence of the state
between any two event handlings, taking prefixes of the sequence) has
`direction = None` exactly when its stop set is empty. -/
theorem claim_C3_direction_invariant (floors elevator_count : ℕ)
    (evts : List BuildingEvent) (s : CtrlState)
    (h : controllerRun floors elevator_count evts = .ok s) :
    ∀ e ∈ s.cars, (e.direction = none ↔ e.should_visit = ∅) := by
  unfold controllerRun at h
  rcases runEvents_reach evts (initialState elevator_count) s
      (ReachGood_initial elevator_count) h with rfl | hall
  · intro e he
    exact (ReachGood_initial elevator_count e he).1
  · intro e he
    exact (hall.1 e he).1

/-- Witness for C3: one car, ten floors, a hall call at floor 5 going up;
after the run the single car is scanning up with stops `{5}`, and the
invariant holds for it. -/
theorem claim_C3_direction_invariant_witness :
    ((⟨0, 0, {5}, some .Up⟩ : ElevatorButtonsInfo).direction = none ↔
      (⟨0, 0, {5}, some .Up⟩ : ElevatorButtonsInfo).should_visit = ∅) :=
  claim_C3_direction_invariant 10 1 [.CallButtonPressed 5 .Up]
    ⟨[⟨0, 0, {5}, some .Up⟩], []⟩ (by rfl) ⟨0, 0, {5}, some .Up⟩ (by decide)


/-! ## Claim C10: duplicate hall calls are absorbed -/

/-- C10: if a pair `(f, d)` is still pending after the controller has
processed a run of events, pressing the same hall button again changes
nothing: the `HashSet` insert is a no-op, the reconciliation pass matches
nothing, no command is emitted, and the state is exactly the one after the
first press. -/
theorem claim_C10_duplicate_call (floors elevator_count : ℕ) (evts : List BuildingEvent)
    (s : CtrlState) (f : ℕ) (d : Direction)
    (h : controllerRun floors elevator_count evts = .ok s) (hmem : (f, d) ∈ s.pending) :
    controllerCycle floors true s (.CallButtonPressed f d) = .ok (s, []) := by
  have hreach := runEvents_reach evts (initialState elevator_count) s
    (ReachGood_initial elevator_count) h
  clear h
  obtain ⟨cars, pending⟩ := s
  rcases hreach with heq | ⟨hg, hpend, hpos⟩
  · unfold initialState at heq
    injection heq with h1 h2
    subst h2
    exact absurd hmem (List.not_mem_nil _)
  · have hmem' : (f, d) ∈ pending := hmem
    have hins : insertPending (f, d) pending = pending := by
      unfold insertPending
      rw [if_pos hmem']
    have hnoop : pending.foldl processPair ⟨cars, [], []⟩ = ⟨cars, [], []⟩ :=
      passFold_noop _ _ fun p hp => hpend p hp
    have hpwl : process_waiting_list cars pending = (cars, pending, []) := by
      rw [process_waiting_list_eq, hnoop]
      simp
    have hprint : printStateCheck floors cars = false := by
      unfold printStateCheck
      rw [List.any_eq_false]
      intro e he
      simp only [decide_eq_true_eq]
      exact Nat.not_le.mpr (hpos e he)
    have hh : handleEvent ⟨cars, pending⟩ (.CallButtonPressed f d) =
        .ok (⟨cars, pending⟩, []) := by
      simp only [handleEvent, hins]
    unfold controllerCycle
    rw [hh]
    simp [hpwl, hprint]

/-- Witness for C10: after a cabin call sends the single car up to floor 5,
the hall call `(7, Down)` stays pending (floor 7 is outside the trip
`0..5`); pressing `(7, Down)` again is a complete no-op. -/
theorem claim_C10_duplicate_call_witness :
    controllerCycle 10 true ⟨[⟨0, 1, {5}, some .Up⟩], [(7, .Down)]⟩
        (.CallButtonPressed 7 .Down) =
      .ok (⟨[⟨0, 1, {5}, some .Up⟩], [(7, .Down)]⟩, []) :=
  claim_C10_duplicate_call 10 1 [.FloorButtonPressed 0 5, .CallButtonPressed 7 .Down]
    ⟨[⟨0, 1, {5}, some .Up⟩], [(7, .Down)]⟩ 7 .Down (by rfl) (by decide)


/-! ## Claim C6: the `AtFloor` arm -/

/-- C6: handling `AtFloor(id, floor)` removes the floor from the car's
stops and moves the car there; if the stop set becomes empty the car goes
idle (`direction = None`) and no command is emitted; otherwise a single
`GoToFloor` to the (recomputed) next stop is emitted; and when the sweep is
exhausted with stops remaining, the direction is reversed. -/
theorem claim_C6_atFloor_event (s : CtrlState) (id floor : ℕ) (h : id < s.cars.length) :
    ∃ (e' : ElevatorButtonsInfo) (cs : List BuildingCommand),
      handleEvent s (.AtFloor id floor) = .ok ({ s with cars := s.cars.set id e' }, cs) ∧
      e'.should_visit = (s.cars.get ⟨id, h⟩).should_visit.erase floor ∧
      e'.position = floor ∧
      (e'.should_visit = ∅ → e'.direction = none ∧ cs = []) ∧
      (e'.should_visit ≠ ∅ →
        ∃ nf : ℕ, e'.next_step = some nf ∧ cs = [.GoToFloor id nf] ∧ e'.direction ≠ none) ∧
      (∀ d, (s.cars.get ⟨id, h⟩).direction = some d →
        ({ s.cars.get ⟨id, h⟩ with
            should_visit := (s.cars.get ⟨id, h⟩).should_visit.erase floor,
            position := floor } : ElevatorButtonsInfo).next_step = none →
        e'.should_visit ≠ ∅ → e'.direction = some d.flipDir) := by
  obtain ⟨hsv, hpos, _, hidle, hbusy, hrev⟩ := atFloorUpdate_spec (s.cars.get ⟨id, h⟩) floor
  refine ⟨(atFloorUpdate (s.cars.get ⟨id, h⟩) floor).1,
    (match (atFloorUpdate (s.cars.get ⟨id, h⟩) floor).2 with
      | some f => [.GoToFloor id f]
      | none => []), ?_, hsv, hpos, ?_, ?_, ?_⟩
  · simp only [handleEvent]
    rw [dif_pos h]
  · intro hx
    obtain ⟨hdir, hcmd⟩ := hidle (hsv.symm.trans hx)
    refine ⟨hdir, ?_⟩
    rw [hcmd]
  · intro hx
    obtain ⟨nf, hns, hr2, hdir⟩ := hbusy fun hy => hx (hsv.trans hy)
    refine ⟨nf, hns, ?_, hdir⟩
    rw [hr2]
  · intro d hd hns hx
    exact hrev d hd hns fun hy => hx (hsv.trans hy)

/-- Witness for C6 (scenario E): the car with stops `{3}` scanning up that
receives `AtFloor(0, 3)` ends idle with `direction = None` and no command
emitted. -/
theorem claim_C6_atFloor_event_witness :
    handleEvent ⟨[⟨0, 0, {3}, some .Up⟩], []⟩ (.AtFloor 0 3) =
      .ok (⟨[⟨3, 0, ∅, none⟩], []⟩, []) := by
  obtain ⟨e', cs, h1, hsv, hpos, hidle, hbusy, hrev⟩ :=
    claim_C6_atFloor_event ⟨[⟨0, 0, {3}, some .Up⟩], []⟩ 0 3 (by decide)
  rfl

/-! ## Inversion helpers for `controllerCycle` -/

theorem controllerCycle_handleEvent_error {floors : ℕ} {chOpen : Bool} {s : CtrlState}
    {evt : BuildingEvent} {k : ControllerPanic} (h : handleEvent s evt = .error k) :
    controllerCycle floors chOpen s evt = .error k := by
  unfold controllerCycle
  rw [h]

theorem controllerCycle_handleEvent_ok {floors : ℕ} {chOpen : Bool} {s : CtrlState}
    {evt : BuildingEvent} {s1 : CtrlState} {c1 : List BuildingCommand}
    (h : handleEvent s evt = .ok (s1, c1)) :
    controllerCycle floors chOpen s evt =
      (if chOpen = false ∧ c1 ≠ [] then .error .sendFailure
       else if chOpen = false ∧ (process_waiting_list s1.cars s1.pending).2.2 ≠ [] then
        .error .sendFailure
       else if printStateCheck floors (process_waiting_list s1.cars s1.pending).1 then
        .error .printIndexOutOfBounds
       else .ok (⟨(process_waiting_list s1.cars s1.pending).1,
          (process_waiting_list s1.cars s1.pending).2.1⟩,
        c1 ++ (process_waiting_list s1.cars s1.pending).2.2)) := by
  unfold controllerCycle
  rw [h]

/-! ## Claim C7: behaviour on a closed command channel -/

/-- C7 (counterexample): the claim says a send failure makes the controller
stop cleanly; but a cabin call handled while the command channel is closed
makes the `send(..).unwrap()` panic — the loop ends in a panic, not in the
clean exit reserved for a closed event stream. -/
theorem claim_C7_counterexample :
    controllerLoop 10 false ⟨[{}], []⟩ [.FloorButtonPressed 0 5] =
      .panicked .sendFailure := by
  rfl

/-- C7 (amended): whenever an event makes the controller send at least one
motion command and the command channel is closed, the controller panics on
the `unwrap` of the failed send, aborting the loop immediately (no retry,
no further events processed, no clean exit). -/
theorem claim_C7_send_failure_panics (floors : ℕ) (s : CtrlState) (evt : BuildingEvent)
    (rest : List BuildingEvent) (s1 : CtrlState) (c : List BuildingCommand)
    (hopen : controllerCycle floors true s evt = .ok (s1, c)) (hc : c ≠ []) :
    controllerLoop floors false s (evt :: rest) = .panicked .sendFailure := by
  cases hh : handleEvent s evt with
  | error k =>
    rw [controllerCycle_handleEvent_error hh] at hopen
    cases hopen
  | ok pr =>
    obtain ⟨s0, c0⟩ := pr
    rw [controllerCycle_handleEvent_ok hh] at hopen
    rw [if_neg (by simp)] at hopen
    rw [if_neg (by simp)] at hopen
    by_cases hp : printStateCheck floors (process_waiting_list s0.cars s0.pending).1 = true
    · rw [if_pos hp] at hopen
      cases hopen
    · rw [if_neg hp] at hopen
      injection hopen with h'
      injection h' with ha hb
      have hstep : controllerLoop floors false s (evt :: rest) =
          match controllerCycle floors false s evt with
          | .ok (st, _) => controllerLoop floors false st rest
          | .error k => .panicked k := rfl
      rw [hstep, controllerCycle_handleEvent_ok hh]
      by_cases hc0 : c0 = []
      · have hr : (process_waiting_list s0.cars s0.pending).2.2 ≠ [] := by
          intro hx
          apply hc
          rw [← hb, hc0, hx]
          rfl
        rw [if_neg (by simp [hc0])]
        rw [if_pos ⟨rfl, hr⟩]
      · rw [if_pos ⟨rfl, hc0⟩]

/-- Witness for the amended C7: with one idle car, the cabin call
`FloorButtonPressed(0, 5)` emits `GoToFloor(0, 5)` on an open channel, so
with the channel closed the controller panics. -/
theorem claim_C7_send_failure_panics_witness :
    controllerLoop 10 false ⟨[{}], []⟩ [.FloorButtonPressed 0 5, .Other] =
      .panicked .sendFailure :=
  claim_C7_send_failure_panics 10 ⟨[{}], []⟩ (.FloorButtonPressed 0 5) [.Other]
    ⟨[⟨0, 1, {5}, some .Up⟩], []⟩ [.GoToFloor 0 5] (by rfl) (by decide)


/-! ## Positions through the reconciliation pass -/

theorem getD_set_eq_of_lt {l : List ElevatorButtonsInfo} {i : ℕ} (hi : i < l.length)
    (a : ElevatorButtonsInfo) : (l.set i a).getD i {} = a := by
  rw [List.getD_eq_getElem _ _ (by rw [List.length_set]; exact hi)]
  exact List.getElem_set_self _

theorem getD_set_ne' {l : List ElevatorButtonsInfo} {i j : ℕ} (hij : i ≠ j)
    (a : ElevatorButtonsInfo) : (l.set i a).getD j {} = l.getD j {} := by
  by_cases hj : j < l.length
  · rw [List.getD_eq_getElem _ _ (by rw [List.length_set]; exact hj),
      List.getD_eq_getElem _ _ hj]
    exact List.getElem_set_ne hij _
  · rw [List.getD_eq_default _ _ (by rw [List.length_set]; exact Nat.le_of_not_lt hj),
      List.getD_eq_default _ _ (Nat.le_of_not_lt hj)]

theorem processPair_length (st : PassState) (p : FloorId × Direction) :
    (processPair st p).cars.length = st.cars.length := by
  rcases processPair_cars_cases st p with h | ⟨id, _, _, h⟩
  · rw [h]
  · rw [h, List.length_set]

theorem processPair_positions (st : PassState) (p : FloorId × Direction) (j : ℕ) :
    ((processPair st p).cars.getD j {}).position = (st.cars.getD j {}).position := by
  rcases processPair_cars_cases st p with h | ⟨id, hid, _, h⟩
  · rw [h]
  · rw [h]
    by_cases hij : id = j
    · subst hij
      rw [getD_set_eq_of_lt (find_best_some_lt hid)]
      exact assignStop_position _ _
    · rw [getD_set_ne' hij]

theorem passFold_length (l : List (FloorId × Direction)) :
    ∀ st : PassState, (l.foldl processPair st).cars.length = st.cars.length := by
  induction l with
  | nil =>
    intro st
    rfl
  | cons p l ih =>
    intro st
    simp only [List.foldl_cons]
    rw [ih (processPair st p), processPair_length]

theorem passFold_positions (l : List (FloorId × Direction)) :
    ∀ (st : PassState) (j : ℕ),
      ((l.foldl processPair st).cars.getD j {}).position = (st.cars.getD j {}).position := by
  induction l with
  | nil =>
    intro st j
    rfl
  | cons p l ih =>
    intro st j
    simp only [List.foldl_cons]
    rw [ih (processPair st p) j, processPair_positions]

theorem printStateCheck_true_of {floors : ℕ} {cars : List ElevatorButtonsInfo} {j : ℕ}
    (hj : j < cars.length) (hge : floors ≤ (cars.getD j {}).position) :
    printStateCheck floors cars = true := by
  unfold printStateCheck
  rw [List.any_eq_true]
  refine ⟨cars.getD j {}, ?_, decide_eq_true hge⟩
  rw [List.getD_eq_getElem _ _ hj]
  exact List.getElem_mem _

/-! ## Claim C8: invalid inbound events abort the controller -/

/-- C8: an event naming a nonexistent car id panics on
`get_mut(elevator_id).unwrap()`; an `AtFloor` with a floor at or beyond
`floors_count` moves the car out of the drawable building, and the
`print_matrix[elevator.position]` index in `print_state` panics in the same
cycle — in every case the controller aborts instead of accepting or
ignoring the event. -/
theorem claim_C8_invalid_events :
    (∀ (floors : ℕ) (chOpen : Bool) (s : CtrlState) (id dest : ℕ),
      s.cars.length ≤ id →
      controllerCycle floors chOpen s (.FloorButtonPressed id dest) =
        .error .badElevatorId) ∧
    (∀ (floors : ℕ) (chOpen : Bool) (s : CtrlState) (id floor : ℕ),
      s.cars.length ≤ id →
      controllerCycle floors chOpen s (.AtFloor id floor) = .error .badElevatorId) ∧
    (∀ (floors : ℕ) (s : CtrlState) (id floor : ℕ), id < s.cars.length →
      floors ≤ floor →
      controllerCycle floors true s (.AtFloor id floor) = .error .printIndexOutOfBounds) := by
  refine ⟨?_, ?_, ?_⟩
  · intro floors chOpen s id dest hle
    refine controllerCycle_handleEvent_error ?_
    simp only [handleEvent]
    rw [dif_neg (Nat.not_lt.mpr hle)]
  · intro floors chOpen s id floor hle
    refine controllerCycle_handleEvent_error ?_
    simp only [handleEvent]
    rw [dif_neg (Nat.not_lt.mpr hle)]
  · intro floors s id floor h hfl
    have hh : handleEvent s (.AtFloor id floor) =
        .ok ({ s with cars := s.cars.set id (atFloorUpdate (s.cars.get ⟨id, h⟩) floor).1 },
          match (atFloorUpdate (s.cars.get ⟨id, h⟩) floor).2 with
          | some f => [.GoToFloor id f]
          | none => []) := by
      simp only [handleEvent]
      rw [dif_pos h]
    rw [controllerCycle_handleEvent_ok hh]
    rw [if_neg (by simp), if_neg (by simp)]
    have hpos : ((s.cars.set id (atFloorUpdate (s.cars.get ⟨id, h⟩) floor).1).getD id
        {}).position = floor := by
      rw [getD_set_eq_of_lt h]
      exact (atFloorUpdate_spec _ _).2.1
    have hid' : id < (s.cars.set id (atFloorUpdate (s.cars.get ⟨id, h⟩) floor).1).length := by
      rw [List.length_set]
      exact h
    have hcheck : printStateCheck floors
        (process_waiting_list
          (s.cars.set id (atFloorUpdate (s.cars.get ⟨id, h⟩) floor).1) s.pending).1 = true := by
      rw [process_waiting_list_eq]
      refine printStateCheck_true_of (j := id) ?_ ?_
      · rw [passFold_length]
        exact hid'
      · rw [passFold_positions]
        rw [hpos]
        exact hfl
    rw [if_pos hcheck]

/-- Witness for C8: with one car and ten floors, a cabin call for car 3
panics on the missing id, and `AtFloor(0, 15)` panics in `print_state`. -/
theorem claim_C8_invalid_events_witness :
    controllerCycle 10 true ⟨[{}], []⟩ (.FloorButtonPressed 3 2) = .error .badElevatorId ∧
    controllerCycle 10 true ⟨[{}], []⟩ (.AtFloor 0 15) = .error .printIndexOutOfBounds :=
  ⟨claim_C8_invalid_events.1 10 true ⟨[{}], []⟩ 3 2 (by decide),
    claim_C8_invalid_events.2.2 10 ⟨[{}], []⟩ 0 15 (by decide) (by decide)⟩


/-! ## `passenger_count` is write-only: scrub lemmas -/

theorem scrub_position (e : ElevatorButtonsInfo) : (scrub e).position = e.position := rfl

theorem scrub_is_idle (e : ElevatorButtonsInfo) : (scrub e).is_idle = e.is_idle := rfl

theorem scrub_next_step (e : ElevatorButtonsInfo) : (scrub e).next_step = e.next_step := rfl

theorem swap_scrub (e : ElevatorButtonsInfo) :
    (scrub e).swap_direction = scrub e.swap_direction := by
  obtain ⟨pos, pc, sv, dir⟩ := e
  cases dir <;> rfl

theorem assignStop_scrub (e : ElevatorButtonsInfo) (f : ℕ) :
    assignStop (scrub e) f = scrub (assignStop e f) := by
  obtain ⟨pos, pc, sv, dir⟩ := e
  simp only [assignStop, scrub]
  by_cases hc : (⟨pos, pc, insert f sv, dir⟩ : ElevatorButtonsInfo).next_step = none
  · have hc0 : (⟨pos, 0, insert f sv, dir⟩ : ElevatorButtonsInfo).next_step = none := hc
    rw [if_pos hc0, if_pos hc]
    exact swap_scrub ⟨pos, pc, insert f sv, dir⟩
  · have hc0 : ¬ (⟨pos, 0, insert f sv, dir⟩ : ElevatorButtonsInfo).next_step = none := hc
    rw [if_neg hc0, if_neg hc]

theorem floorButtonUpdate_scrub (e : ElevatorButtonsInfo) (dest : ℕ) :
    scrub (floorButtonUpdate e dest) = assignStop (scrub e) dest := by
  calc scrub (floorButtonUpdate e dest)
      = scrub (assignStop { e with passenger_count := e.passenger_count + 1 } dest) := rfl
    _ = assignStop (scrub { e with passenger_count := e.passenger_count + 1 }) dest :=
        (assignStop_scrub _ _).symm
    _ = assignStop (scrub e) dest := rfl

theorem atFloorUpdate_scrub (e : ElevatorButtonsInfo) (floor : ℕ) :
    atFloorUpdate (scrub e) floor =
      (scrub (atFloorUpdate e floor).1, (atFloorUpdate e floor).2) := by
  obtain ⟨pos, pc, sv, dir⟩ := e
  simp only [atFloorUpdate, scrub]
  by_cases hc : (⟨floor, pc, sv.erase floor, dir⟩ : ElevatorButtonsInfo).next_step = none ∧
      (⟨floor, pc, sv.erase floor, dir⟩ : ElevatorButtonsInfo).is_idle = false
  · have hc0 : (⟨floor, 0, sv.erase floor, dir⟩ : ElevatorButtonsInfo).next_step = none ∧
        (⟨floor, 0, sv.erase floor, dir⟩ : ElevatorButtonsInfo).is_idle = false := hc
    rw [if_pos hc0, if_pos hc]
    have hsw : (⟨floor, 0, sv.erase floor, dir⟩ : ElevatorButtonsInfo).swap_direction =
        scrub (⟨floor, pc, sv.erase floor, dir⟩ : ElevatorButtonsInfo).swap_direction :=
      swap_scrub ⟨floor, pc, sv.erase floor, dir⟩
    rw [hsw, scrub_is_idle, scrub_next_step]
    by_cases hidle : (⟨floor, pc, sv.erase floor, dir⟩ :
        ElevatorButtonsInfo).swap_direction.is_idle = false
    · rw [if_pos hidle, if_pos hidle]
      rfl
    · rw [if_neg hidle, if_neg hidle]
      rfl
  · have hc0 : ¬ ((⟨floor, 0, sv.erase floor, dir⟩ : ElevatorButtonsInfo).next_step = none ∧
        (⟨floor, 0, sv.erase floor, dir⟩ : ElevatorButtonsInfo).is_idle = false) := hc
    rw [if_neg hc0, if_neg hc]
    by_cases hidle : (⟨floor, pc, sv.erase floor, dir⟩ :
        ElevatorButtonsInfo).is_idle = false
    · have hidle0 : (⟨floor, 0, sv.erase floor, dir⟩ :
          ElevatorButtonsInfo).is_idle = false := hidle
      rw [if_pos hidle0, if_pos hidle]
      rfl
    · have hidle0 : ¬ (⟨floor, 0, sv.erase floor, dir⟩ :
          ElevatorButtonsInfo).is_idle = false := hidle
      rw [if_neg hidle0, if_neg hidle]

theorem getD_map_scrub (l : List ElevatorButtonsInfo) (i : ℕ) :
    (l.map scrub).getD i {} = scrub (l.getD i {}) := by
  by_cases hi : i < l.length
  · rw [List.getD_eq_getElem _ _ (by rw [List.length_map]; exact hi),
      List.getD_eq_getElem _ _ hi]
    exact List.getElem_map scrub
  · rw [List.getD_eq_default _ _ (by rw [List.length_map]; exact Nat.le_of_not_lt hi),
      List.getD_eq_default _ _ (Nat.le_of_not_lt hi)]
    rfl

theorem findBestAux_scrub (floor : ℕ) (dir : Direction) :
    ∀ (l : List ElevatorButtonsInfo) (k : ℕ) (best : Option (ℤ × ElevatorId)),
      findBestAux floor dir (l.map scrub) k best = findBestAux floor dir l k best := by
  intro l
  induction l with
  | nil =>
    intro k best
    rfl
  | cons e l ih =>
    intro k best
    simp only [List.map_cons, findBestAux]
    have hbc : betterCandidate floor dir best k (scrub e) = betterCandidate floor dir best k e :=
      rfl
    rw [hbc]
    exact ih (k + 1) _

theorem find_best_scrub (floor : ℕ) (dir : Direction) (cars : List ElevatorButtonsInfo) :
    find_best_elevator_match floor dir (cars.map scrub) =
      find_best_elevator_match floor dir cars := by
  unfold find_best_elevator_match
  rw [findBestAux_scrub]

theorem processPair_scrub (st : PassState) (p : FloorId × Direction) :
    processPair ⟨st.cars.map scrub, st.to_remove, st.cmds⟩ p =
      ⟨(processPair st p).cars.map scrub, (processPair st p).to_remove,
        (processPair st p).cmds⟩ := by
  cases hf : find_best_elevator_match p.1 p.2 st.cars with
  | none =>
    rw [processPair_no_match hf]
    rw [processPair_no_match (by rw [find_best_scrub]; exact hf)]
  | some id =>
    have hf' : find_best_elevator_match p.1 p.2 (st.cars.map scrub) = some id := by
      rw [find_best_scrub]
      exact hf
    simp only [processPair, hf, hf', getD_map_scrub, scrub_position, scrub_is_idle]
    by_cases hskip : p.1 = (st.cars.getD id {}).position ∧ (st.cars.getD id {}).is_idle = false
    · rw [if_pos hskip, if_pos hskip]
    · rw [if_neg hskip, if_neg hskip]
      rw [assignStop_scrub, scrub_next_step, ← List.map_set]

theorem passFold_scrub (l : List (FloorId × Direction)) :
    ∀ st : PassState,
      l.foldl processPair ⟨st.cars.map scrub, st.to_remove, st.cmds⟩ =
        ⟨(l.foldl processPair st).cars.map scrub, (l.foldl processPair st).to_remove,
          (l.foldl processPair st).cmds⟩ := by
  induction l with
  | nil =>
    intro st
    rfl
  | cons p l ih =>
    intro st
    simp only [List.foldl_cons]
    rw [processPair_scrub]
    exact ih (processPair st p)

theorem process_waiting_list_scrub (cars : List ElevatorButtonsInfo)
    (pending : List (FloorId × Direction)) :
    process_waiting_list (cars.map scrub) pending =
      ((process_waiting_list cars pending).1.map scrub,
        (process_waiting_list cars pending).2.1,
        (process_waiting_list cars pending).2.2) := by
  rw [process_waiting_list_eq, process_waiting_list_eq]
  have h := passFold_scrub pending ⟨cars, [], []⟩
  rw [h]

theorem printStateCheck_scrub (floors : ℕ) (l : List ElevatorButtonsInfo) :
    printStateCheck floors (l.map scrub) = printStateCheck floors l := by
  unfold printStateCheck
  rw [List.any_map]
  rfl


/-! ## Non-interference of `passenger_count` -/

theorem handleEvent_scrub {s1 s2 : CtrlState} (h : scrubState s1 = scrubState s2)
    (evt : BuildingEvent) :
    scrubRes (handleEvent s1 evt) = scrubRes (handleEvent s2 evt) := by
  have hcars : s1.cars.map scrub = s2.cars.map scrub := congrArg CtrlState.cars h
  have hpend0 := congrArg CtrlState.pending h
  have hpend : s1.pending = s2.pending := hpend0
  have hlen : s1.cars.length = s2.cars.length := by
    have hx := congrArg List.length hcars
    rwa [List.length_map, List.length_map] at hx
  cases evt with
  | CallButtonPressed f d =>
    simp only [handleEvent, scrubRes, scrubState]
    rw [hcars, hpend]
  | FloorButtonPressed id dest =>
    simp only [handleEvent]
    by_cases hlt : id < s1.cars.length
    · have hlt2 : id < s2.cars.length := hlen ▸ hlt
      rw [dif_pos hlt, dif_pos hlt2]
      have hget : scrub (s1.cars.get ⟨id, hlt⟩) = scrub (s2.cars.get ⟨id, hlt2⟩) := by
        have h1 : (s1.cars.map scrub).getD id {} = (s2.cars.map scrub).getD id {} := by
          rw [hcars]
        rw [getD_map_scrub, getD_map_scrub, List.getD_eq_getElem _ _ hlt,
          List.getD_eq_getElem _ _ hlt2] at h1
        rw [List.get_eq_getElem, List.get_eq_getElem]
        exact h1
      have hupd : scrub (floorButtonUpdate (s1.cars.get ⟨id, hlt⟩) dest) =
          scrub (floorButtonUpdate (s2.cars.get ⟨id, hlt2⟩) dest) := by
        rw [floorButtonUpdate_scrub, floorButtonUpdate_scrub, hget]
      have hns : (floorButtonUpdate (s1.cars.get ⟨id, hlt⟩) dest).next_step =
          (floorButtonUpdate (s2.cars.get ⟨id, hlt2⟩) dest).next_step := by
        rw [← scrub_next_step, hupd, scrub_next_step]
      simp only [scrubRes, scrubState]
      rw [List.map_set, List.map_set, hupd, hcars, hpend, hns]
    · have hlt2 : ¬ id < s2.cars.length := by
        rw [← hlen]
        exact hlt
      rw [dif_neg hlt, dif_neg hlt2]
  | AtFloor id floor =>
    simp only [handleEvent]
    by_cases hlt : id < s1.cars.length
    · have hlt2 : id < s2.cars.length := hlen ▸ hlt
      rw [dif_pos hlt, dif_pos hlt2]
      have hget : scrub (s1.cars.get ⟨id, hlt⟩) = scrub (s2.cars.get ⟨id, hlt2⟩) := by
        have h1 : (s1.cars.map scrub).getD id {} = (s2.cars.map scrub).getD id {} := by
          rw [hcars]
        rw [getD_map_scrub, getD_map_scrub, List.getD_eq_getElem _ _ hlt,
          List.getD_eq_getElem _ _ hlt2] at h1
        rw [List.get_eq_getElem, List.get_eq_getElem]
        exact h1
      have hr : (scrub (atFloorUpdate (s1.cars.get ⟨id, hlt⟩) floor).1,
          (atFloorUpdate (s1.cars.get ⟨id, hlt⟩) floor).2) =
          (scrub (atFloorUpdate (s2.cars.get ⟨id, hlt2⟩) floor).1,
            (atFloorUpdate (s2.cars.get ⟨id, hlt2⟩) floor).2) := by
        rw [← atFloorUpdate_scrub, ← atFloorUpdate_scrub, hget]
      injection hr with hr1 hr2
      simp only [scrubRes, scrubState]
      rw [List.map_set, List.map_set, hr1, hcars, hpend, hr2]
    · have hlt2 : ¬ id < s2.cars.length := by
        rw [← hlen]
        exact hlt
      rw [dif_neg hlt, dif_neg hlt2]
  | Other =>
    simp only [handleEvent, scrubRes, scrubState]
    rw [hcars, hpend]

theorem controllerCycle_scrub {floors : ℕ} {chOpen : Bool} {s1 s2 : CtrlState}
    (h : scrubState s1 = scrubState s2) (evt : BuildingEvent) :
    scrubRes (controllerCycle floors chOpen s1 evt) =
      scrubRes (controllerCycle floors chOpen s2 evt) := by
  have hh := handleEvent_scrub h evt
  cases h1 : handleEvent s1 evt with
  | error k1 =>
    cases h2 : handleEvent s2 evt with
    | error k2 =>
      rw [h1, h2] at hh
      simp only [scrubRes] at hh
      injection hh with hk
      rw [controllerCycle_handleEvent_error h1, controllerCycle_handleEvent_error h2, hk]
    | ok pr =>
      obtain ⟨t2, c2⟩ := pr
      rw [h1, h2] at hh
      simp only [scrubRes] at hh
      cases hh
  | ok pr1 =>
    obtain ⟨t1, c1⟩ := pr1
    cases h2 : handleEvent s2 evt with
    | error k2 =>
      rw [h1, h2] at hh
      simp only [scrubRes] at hh
      cases hh
    | ok pr2 =>
      obtain ⟨t2, c2⟩ := pr2
      rw [h1, h2] at hh
      simp only [scrubRes] at hh
      injection hh with hh'
      injection hh' with hst hcc
      have htc : t1.cars.map scrub = t2.cars.map scrub := congrArg CtrlState.cars hst
      have htp0 := congrArg CtrlState.pending hst
      have htp : t1.pending = t2.pending := htp0
      have e1 := process_waiting_list_scrub t1.cars t2.pending
      have e2 := process_waiting_list_scrub t2.cars t2.pending
      rw [htc] at e1
      have e3 := e1.symm.trans e2
      injection e3 with er1 erest
      injection erest with er21 er22
      have hprint : printStateCheck floors (process_waiting_list t1.cars t2.pending).1 =
          printStateCheck floors (process_waiting_list t2.cars t2.pending).1 := by
        rw [← printStateCheck_scrub floors (process_waiting_list t1.cars t2.pending).1,
          ← printStateCheck_scrub floors (process_waiting_list t2.cars t2.pending).1, er1]
      rw [controllerCycle_handleEvent_ok h1, controllerCycle_handleEvent_ok h2]
      rw [hcc, htp, er21, er22, hprint]
      by_cases hg1 : chOpen = false ∧ c2 ≠ []
      · rw [if_pos hg1, if_pos hg1]
      · rw [if_neg hg1, if_neg hg1]
        by_cases hg2 : chOpen = false ∧ (process_waiting_list t2.cars t2.pending).2.2 ≠ []
        · rw [if_pos hg2, if_pos hg2]
        · rw [if_neg hg2, if_neg hg2]
          by_cases hg3 : printStateCheck floors (process_waiting_list t2.cars t2.pending).1
              = true
          · rw [if_pos hg3, if_pos hg3]
          · rw [if_neg hg3, if_neg hg3]
            simp only [scrubRes, scrubState]
            rw [er1]

theorem runEventsLog_cons_error {floors : ℕ} {s : CtrlState} {e : BuildingEvent}
    {rest : List BuildingEvent} {k : ControllerPanic}
    (h : controllerCycle floors true s e = .error k) :
    runEventsLog floors s (e :: rest) = .error k := by
  unfold runEventsLog
  rw [h]

theorem runEventsLog_cons_ok {floors : ℕ} {s : CtrlState} {e : BuildingEvent}
    {rest : List BuildingEvent} {s1 : CtrlState} {c1 : List BuildingCommand}
    (h : controllerCycle floors true s e = .ok (s1, c1)) :
    runEventsLog floors s (e :: rest) =
      (match runEventsLog floors s1 rest with
       | .ok (s2, c2) => .ok (s2, c1 ++ c2)
       | .error k => .error k) := by
  have hstep : runEventsLog floors s (e :: rest) =
      (match controllerCycle floors true s e with
       | .ok (t, c) =>
         match runEventsLog floors t rest with
         | .ok (s2, c2) => .ok (s2, c ++ c2)
         | .error k => .error k
       | .error k => .error k) := rfl
  rw [hstep, h]

theorem runEventsLog_scrub {floors : ℕ} :
    ∀ (evts : List BuildingEvent) (s1 s2 : CtrlState), scrubState s1 = scrubState s2 →
      scrubRes (runEventsLog floors s1 evts) = scrubRes (runEventsLog floors s2 evts) := by
  intro evts
  induction evts with
  | nil =>
    intro s1 s2 h
    simp only [runEventsLog, scrubRes]
    rw [h]
  | cons e rest ih =>
    intro s1 s2 h
    have hc := @controllerCycle_scrub floors true s1 s2 h e
    cases h1 : controllerCycle floors true s1 e with
    | error k1 =>
      cases h2 : controllerCycle floors true s2 e with
      | error k2 =>
        rw [h1, h2] at hc
        simp only [scrubRes] at hc
        injection hc with hk
        rw [runEventsLog_cons_error h1, runEventsLog_cons_error h2, hk]
      | ok pr =>
        obtain ⟨t2, c2⟩ := pr
        rw [h1, h2] at hc
        simp only [scrubRes] at hc
        cases hc
    | ok pr1 =>
      obtain ⟨t1, c1⟩ := pr1
      cases h2 : controllerCycle floors true s2 e with
      | error k2 =>
        rw [h1, h2] at hc
        simp only [scrubRes] at hc
        cases hc
      | ok pr2 =>
        obtain ⟨t2, c2⟩ := pr2
        rw [h1, h2] at hc
        simp only [scrubRes] at hc
        injection hc with hc'
        injection hc' with hst hcc
        rw [runEventsLog_cons_ok h1, runEventsLog_cons_ok h2, hcc]
        have hrec := ih t1 t2 hst
        cases hr1 : runEventsLog floors t1 rest with
        | error k =>
          cases hr2 : runEventsLog floors t2 rest with
          | error k3 =>
            rw [hr1, hr2] at hrec
            simp only [scrubRes] at hrec
            injection hrec with hk
            rw [hk]
          | ok pr =>
            obtain ⟨a, b⟩ := pr
            rw [hr1, hr2] at hrec
            simp only [scrubRes] at hrec
            cases hrec
        | ok prr1 =>
          obtain ⟨sf1, cf1⟩ := prr1
          cases hr2 : runEventsLog floors t2 rest with
          | error k3 =>
            rw [hr1, hr2] at hrec
            simp only [scrubRes] at hrec
            cases hrec
          | ok prr2 =>
            obtain ⟨sf2, cf2⟩ := prr2
            rw [hr1, hr2] at hrec
            simp only [scrubRes] at hrec
            injection hrec with hrec'
            injection hrec' with hsf hcf
            have hfc : sf1.cars.map scrub = sf2.cars.map scrub := congrArg CtrlState.cars hsf
            have hfp0 := congrArg CtrlState.pending hsf
            have hfp : sf1.pending = sf2.pending := hfp0
            rw [hcf]
            simp only [scrubRes, scrubState]
            rw [hfc, hfp]

/-! ## Claim C9: the dispatch never reads `passenger_count` -/

/-- C9: `passenger_count` is incremented on `FloorButtonPressed` but never
read: two controller runs over the same events whose starting states agree
everywhere except in the cars' `passenger_count` fields produce identical
motion commands, identical panics, and final states again agreeing
everywhere except in `passenger_count`. -/
theorem claim_C9_passenger_count_oblivious (floors : ℕ) (evts : List BuildingEvent)
    (s1 s2 : CtrlState) (h : scrubState s1 = scrubState s2) :
    scrubRes (runEventsLog floors s1 evts) = scrubRes (runEventsLog floors s2 evts) :=
  runEventsLog_scrub evts s1 s2 h

/-- Witness for C9: the same cabin call on two single-car states that differ
only in `passenger_count` (0 versus 7). -/
theorem claim_C9_passenger_count_oblivious_witness :
    scrubRes (runEventsLog 10 ⟨[{}], []⟩ [.FloorButtonPressed 0 4]) =
      scrubRes (runEventsLog 10 ⟨[{ passenger_count := 7 }], []⟩ [.FloorButtonPressed 0 4]) :=
  claim_C9_passenger_count_oblivious 10 [.FloorButtonPressed 0 4] ⟨[{}], []⟩
    ⟨[{ passenger_count := 7 }], []⟩ (by rfl)


end Elevator
